import Mathlib

/-!
Verification of the TheoryDB request-compilation engine (`theorydb_py`).

This file shallowly embeds the parts of the library that the checked
properties concern:

* the cursor protocol (`query.py`: `encode_cursor` / `decode_cursor`),
  together with executable models of the Python library primitives it
  composes: base64 (standard and URL-safe alphabets, padded, as in
  `base64.b64encode` / `base64.urlsafe_b64encode`), UTF-8, and the compact
  JSON serialization of `json.dumps(..., separators=(",", ":"),
  ensure_ascii=False)` with the matching fragment of `json.loads`;
* the attribute-value codec used inside cursors (`_av_to_json` /
  `_av_from_json`) and inside encrypted envelopes
  (`marshal_attribute_value_json` / `unmarshal_attribute_value_json`);
* per-attribute envelope encryption (`encryption.py`) over an idealized
  AEAD model of AES-256-GCM;
* the update builder (`update_builder.py: UpdateBuilder._build_request`),
  the field-update-map compiler (`table.py: Table._build_update_request`),
  item serialization for writes (`table.py: _is_empty` / `_to_item`),
  the batch retry loops (`table.py: batch_get` / `batch_write`),
  transaction error mapping (`aws_errors.py: map_transaction_error`), and
  the lease manager (`lease.py: LeaseManager.acquire`).

Python strings are modelled as lists of Unicode code points (`List Nat`),
and Python `bytes` as lists of byte values (`List Nat`, each `< 256`).
External collaborators (the DynamoDB client, the KMS client, the random
source and the clock) are modelled as explicit parameters, mirroring the
injection seams the library exposes for tests.
-/

/-! ## Code points, Python strings and Python byte strings -/

/-- A Python string as its list of Unicode code points. -/
abbrev PyStr := List Nat

/-- A Python byte string as its list of byte values. -/
abbrev PyBytes := List Nat

/-- Code points of a Lean string literal, for writing concrete `PyStr` values. -/
def cps (s : String) : PyStr := s.data.map Char.toNat

/-- A valid Unicode scalar value: below the surrogate range or between the
surrogate range and the Unicode ceiling.  Python strings that contain
surrogates cannot be UTF-8 encoded, so representable payloads avoid them. -/
def validCp (c : Nat) : Bool := decide (c < 0xD800) || (decide (0xDFFF < c) && decide (c < 0x110000))

/-- Lexicographic comparison of code-point lists, the order Python uses to
compare strings (`sorted` over attribute names). -/
def lexLt : PyStr → PyStr → Bool
  | [], [] => false
  | [], _ :: _ => true
  | _ :: _, [] => false
  | a :: as, b :: bs => if a < b then true else if b < a then false else lexLt as bs

/-- Keys of an association list are strictly increasing (the canonical layout
of a Python dict whose keys were inserted in sorted order). -/
def keysSorted {α : Type} : List (PyStr × α) → Bool
  | [] => true
  | [_] => true
  | a :: b :: rest => lexLt a.1 b.1 && keysSorted (b :: rest)

/-- Insert one key/value pair into a key-sorted association list. -/
def insertKv {α : Type} (p : PyStr × α) : List (PyStr × α) → List (PyStr × α)
  | [] => [p]
  | q :: rest => if lexLt p.1 q.1 then p :: q :: rest else q :: insertKv p rest

/-- Sort an association list by key, the model of iterating a Python dict in
`sorted(d.keys())` order. -/
def sortKvs {α : Type} : List (PyStr × α) → List (PyStr × α)
  | [] => []
  | p :: rest => insertKv p (sortKvs rest)

theorem insertKv_of_lt {α : Type} (p q : PyStr × α) (rest : List (PyStr × α))
    (h : lexLt p.1 q.1 = true) : insertKv p (q :: rest) = p :: q :: rest := by
  simp [insertKv, h]

/-- Sorting a list whose keys are already strictly increasing is the
identity, so canonical inputs pass through the cursor codec unchanged. -/
theorem sortKvs_of_sorted {α : Type} :
    ∀ kvs : List (PyStr × α), keysSorted kvs = true → sortKvs kvs = kvs := by
  intro kvs
  induction kvs with
  | nil => intro _; rfl
  | cons p rest ih =>
    intro hs
    cases rest with
    | nil => rfl
    | cons q rest2 =>
      have hlt : lexLt p.1 q.1 = true := by
        simp [keysSorted] at hs
        exact hs.1
      have hrest : keysSorted (q :: rest2) = true := by
        simp [keysSorted] at hs ⊢
        exact hs.2
      have ihq := ih hrest
      calc sortKvs (p :: q :: rest2) = insertKv p (sortKvs (q :: rest2)) := rfl
        _ = insertKv p (q :: rest2) := by rw [ihq]
        _ = p :: q :: rest2 := insertKv_of_lt p q rest2 hlt

/-! ## Base64 (`base64.b64encode`, `base64.urlsafe_b64encode` and decoders)

Python's encoders always emit `=` padding; the URL-safe variant swaps
`+`/`/` for `-`/`_`.  The decoder used by `decode_cursor` restores padding
before calling `base64.urlsafe_b64decode`. -/

/-- Code point of the base64 digit for a six-bit value, standard alphabet. -/
def b64DigitStd (i : Nat) : Nat :=
  if i < 26 then 65 + i
  else if i < 52 then 97 + (i - 26)
  else if i < 62 then 48 + (i - 52)
  else if i = 62 then 43
  else 47

/-- Code point of the base64 digit for a six-bit value, URL-safe alphabet. -/
def b64DigitUrl (i : Nat) : Nat :=
  if i < 26 then 65 + i
  else if i < 52 then 97 + (i - 26)
  else if i < 62 then 48 + (i - 52)
  else if i = 62 then 45
  else 95

/-- Six-bit value of a standard-alphabet base64 digit. -/
def b64ValStd (c : Nat) : Option Nat :=
  if 65 ≤ c ∧ c ≤ 90 then some (c - 65)
  else if 97 ≤ c ∧ c ≤ 122 then some (26 + (c - 97))
  else if 48 ≤ c ∧ c ≤ 57 then some (52 + (c - 48))
  else if c = 43 then some 62
  else if c = 47 then some 63
  else none

/-- Six-bit value of a URL-safe-alphabet base64 digit. -/
def b64ValUrl (c : Nat) : Option Nat :=
  if 65 ≤ c ∧ c ≤ 90 then some (c - 65)
  else if 97 ≤ c ∧ c ≤ 122 then some (26 + (c - 97))
  else if 48 ≤ c ∧ c ≤ 57 then some (52 + (c - 48))
  else if c = 45 then some 62
  else if c = 95 then some 63
  else none

/-- Padded base64 encoding over an abstract digit table. -/
def b64EncodeWith (digit : Nat → Nat) : PyBytes → PyStr
  | [] => []
  | [a] => [digit (a / 4), digit (a % 4 * 16), 61, 61]
  | [a, b] => [digit (a / 4), digit (a % 4 * 16 + b / 16), digit (b % 16 * 4), 61]
  | a :: b :: c :: rest =>
    digit (a / 4) :: digit (a % 4 * 16 + b / 16) :: digit (b % 16 * 4 + c / 64) ::
      digit (c % 64) :: b64EncodeWith digit rest

/-- Padded base64 decoding over an abstract digit-value table. -/
def b64DecodeWith (val : Nat → Option Nat) : PyStr → Option PyBytes
  | [] => some []
  | c1 :: c2 :: c3 :: c4 :: rest =>
    match val c1, val c2 with
    | some v1, some v2 =>
      if c3 = 61 then
        if c4 = 61 ∧ rest = [] then some [v1 * 4 + v2 / 16] else none
      else
        match val c3 with
        | some v3 =>
          if c4 = 61 then
            if rest = [] then some [v1 * 4 + v2 / 16, v2 % 16 * 16 + v3 / 4] else none
          else
            match val c4, b64DecodeWith val rest with
            | some v4, some tail =>
              some ((v1 * 4 + v2 / 16) :: (v2 % 16 * 16 + v3 / 4) :: (v3 % 4 * 64 + v4) :: tail)
            | _, _ => none
        | none => none
    | _, _ => none
  | _ => none

/-- Model of `base64.b64encode` (standard alphabet, padded). -/
def b64Encode (bs : PyBytes) : PyStr := b64EncodeWith b64DigitStd bs

/-- Model of `base64.b64decode` on well-formed input. -/
def b64Decode (s : PyStr) : Option PyBytes := b64DecodeWith b64ValStd s

/-- Model of `base64.urlsafe_b64encode` (URL-safe alphabet, padded). -/
def b64UrlEncode (bs : PyBytes) : PyStr := b64EncodeWith b64DigitUrl bs

/-- Model of `base64.urlsafe_b64decode` on well-formed input. -/
def b64UrlDecode (s : PyStr) : Option PyBytes := b64DecodeWith b64ValUrl s

theorem b64ValStd_digit : ∀ i : Nat, i < 64 → b64ValStd (b64DigitStd i) = some i := by decide

theorem b64ValUrl_digit : ∀ i : Nat, i < 64 → b64ValUrl (b64DigitUrl i) = some i := by decide

theorem b64DigitStd_ne_61 : ∀ i : Nat, i < 64 → b64DigitStd i ≠ 61 := by decide

theorem b64DigitUrl_ne_61 : ∀ i : Nat, i < 64 → b64DigitUrl i ≠ 61 := by decide

/-- Decoding inverts encoding on byte input, for any digit table faithful to
its value table that never emits the padding character. -/
theorem b64DecodeWith_encodeWith (digit : Nat → Nat) (val : Nat → Option Nat)
    (hdv : ∀ i : Nat, i < 64 → val (digit i) = some i)
    (hne : ∀ i : Nat, i < 64 → digit i ≠ 61) :
    ∀ n bs, bs.length ≤ n → (∀ b ∈ bs, b < 256) →
      b64DecodeWith val (b64EncodeWith digit bs) = some bs := by
  intro n
  induction n with
  | zero =>
    intro bs hlen _
    have : bs = [] := List.eq_nil_of_length_eq_zero (Nat.le_zero.mp hlen)
    subst this
    simp [b64EncodeWith, b64DecodeWith]
  | succ n ih =>
    intro bs hlen hb
    match bs with
    | [] => simp [b64EncodeWith, b64DecodeWith]
    | [a] =>
      have ha : a < 256 := hb a (by simp)
      have h1 : a / 4 < 64 := by omega
      have h2 : a % 4 * 16 < 64 := by omega
      simp only [b64EncodeWith, b64DecodeWith, hdv _ h1, hdv _ h2]
      simp
      omega
    | [a, b] =>
      have ha : a < 256 := hb a (by simp)
      have hb2 : b < 256 := hb b (by simp)
      have h1 : a / 4 < 64 := by omega
      have h2 : a % 4 * 16 + b / 16 < 64 := by omega
      have h3 : b % 16 * 4 < 64 := by omega
      simp only [b64EncodeWith, b64DecodeWith, hdv _ h1, hdv _ h2]
      rw [if_neg (hne _ h3)]
      simp only [hdv _ h3, if_pos rfl]
      simp
      omega
    | a :: b :: c :: rest =>
      have ha : a < 256 := hb a (by simp)
      have hb2 : b < 256 := hb b (by simp)
      have hc : c < 256 := hb c (by simp)
      have h1 : a / 4 < 64 := by omega
      have h2 : a % 4 * 16 + b / 16 < 64 := by omega
      have h3 : b % 16 * 4 + c / 64 < 64 := by omega
      have h4 : c % 64 < 64 := by omega
      have hrest : b64DecodeWith val (b64EncodeWith digit rest) = some rest := by
        refine ih rest ?_ ?_
        · simp only [List.length_cons] at hlen; omega
        · intro x hx; exact hb x (by simp [hx])
      simp only [b64EncodeWith, b64DecodeWith, hdv _ h1, hdv _ h2]
      rw [if_neg (hne _ h3)]
      simp only [hdv _ h3]
      rw [if_neg (hne _ h4)]
      simp only [hdv _ h4, hrest]
      simp
      omega

/-- Standard-alphabet round trip, as exercised by binary attribute values. -/
theorem b64Decode_encode (bs : PyBytes) (hb : ∀ b ∈ bs, b < 256) :
    b64Decode (b64Encode bs) = some bs :=
  b64DecodeWith_encodeWith b64DigitStd b64ValStd b64ValStd_digit b64DigitStd_ne_61
    bs.length bs le_rfl hb

/-- URL-safe-alphabet round trip, as exercised by cursor tokens. -/
theorem b64UrlDecode_encode (bs : PyBytes) (hb : ∀ b ∈ bs, b < 256) :
    b64UrlDecode (b64UrlEncode bs) = some bs :=
  b64DecodeWith_encodeWith b64DigitUrl b64ValUrl b64ValUrl_digit b64DigitUrl_ne_61
    bs.length bs le_rfl hb

/-! ## UTF-8 (`str.encode("utf-8")` / `bytes.decode("utf-8")`) -/

/-- UTF-8 encoding of one code point (`str.encode` per character). -/
def utf8EncodeCp (c : Nat) : PyBytes :=
  if c < 0x80 then [c]
  else if c < 0x800 then [0xC0 + c / 64, 0x80 + c % 64]
  else if c < 0x10000 then [0xE0 + c / 4096, 0x80 + c / 64 % 64, 0x80 + c % 64]
  else [0xF0 + c / 262144, 0x80 + c / 4096 % 64, 0x80 + c / 64 % 64, 0x80 + c % 64]

/-- UTF-8 encoding of a whole string. -/
def utf8Encode (s : PyStr) : PyBytes := s.flatMap utf8EncodeCp

/-- Decode a two-byte UTF-8 sequence tail. -/
def utf8Tail2 (b : Nat) : PyBytes → Option (Nat × PyBytes)
  | b2 :: bs2 =>
    if 0x80 ≤ b2 ∧ b2 < 0xC0 then some ((b - 0xC0) * 64 + (b2 - 0x80), bs2) else none
  | [] => none

/-- Decode a three-byte UTF-8 sequence tail. -/
def utf8Tail3 (b : Nat) : PyBytes → Option (Nat × PyBytes)
  | b2 :: b3 :: bs3 =>
    if (0x80 ≤ b2 ∧ b2 < 0xC0) ∧ (0x80 ≤ b3 ∧ b3 < 0xC0) then
      some ((b - 0xE0) * 4096 + (b2 - 0x80) * 64 + (b3 - 0x80), bs3)
    else none
  | _ => none

/-- Decode a four-byte UTF-8 sequence tail. -/
def utf8Tail4 (b : Nat) : PyBytes → Option (Nat × PyBytes)
  | b2 :: b3 :: b4 :: bs4 =>
    if (0x80 ≤ b2 ∧ b2 < 0xC0) ∧ (0x80 ≤ b3 ∧ b3 < 0xC0) ∧ (0x80 ≤ b4 ∧ b4 < 0xC0) then
      some ((b - 0xF0) * 262144 + (b2 - 0x80) * 4096 + (b3 - 0x80) * 64 + (b4 - 0x80), bs4)
    else none
  | _ => none

/-- Decode one UTF-8-encoded code point, returning it with the unread rest. -/
def utf8DecodeOne : PyBytes → Option (Nat × PyBytes)
  | [] => none
  | b :: bs =>
    if b < 0x80 then some (b, bs)
    else if b < 0xC0 then none
    else if b < 0xE0 then utf8Tail2 b bs
    else if b < 0xF0 then utf8Tail3 b bs
    else if b < 0xF8 then utf8Tail4 b bs
    else none

/-- Fuelled UTF-8 decoding loop; one unit of fuel per decoded code point. -/
def utf8DecodeAux : Nat → PyBytes → Option PyStr
  | _, [] => some []
  | 0, _ :: _ => none
  | fuel + 1, b :: bs =>
    match utf8DecodeOne (b :: bs) with
    | some (c, rest) => (utf8DecodeAux fuel rest).map (c :: ·)
    | none => none

/-- UTF-8 decoding; `none` models a `UnicodeDecodeError`.  The byte length
bounds the number of decoded code points, so it serves as fuel. -/
def utf8Decode (bs : PyBytes) : Option PyStr := utf8DecodeAux bs.length bs

theorem utf8EncodeCp_lt_256 (c : Nat) (hc : c < 0x110000) :
    ∀ b ∈ utf8EncodeCp c, b < 256 := by
  intro b hb
  unfold utf8EncodeCp at hb
  split at hb
  · simp only [List.mem_singleton] at hb; omega
  · split at hb
    · simp only [List.mem_cons, List.mem_singleton, List.not_mem_nil, or_false] at hb
      rcases hb with h | h <;> omega
    · split at hb
      · simp only [List.mem_cons, List.mem_singleton, List.not_mem_nil, or_false] at hb
        rcases hb with h | h | h <;> omega
      · simp only [List.mem_cons, List.mem_singleton, List.not_mem_nil, or_false] at hb
        rcases hb with h | h | h | h <;> omega

theorem utf8Encode_lt_256 (s : PyStr) (hs : ∀ c ∈ s, c < 0x110000) :
    ∀ b ∈ utf8Encode s, b < 256 := by
  intro b hb
  simp only [utf8Encode, List.mem_flatMap] at hb
  obtain ⟨c, hc, hbc⟩ := hb
  exact utf8EncodeCp_lt_256 c (hs c hc) b hbc

/-- Decoding one encoded code point consumes exactly its bytes. -/
theorem utf8DecodeOne_encodeCp (c : Nat) (hc : c < 0x110000) (bs : PyBytes) :
    utf8DecodeOne (utf8EncodeCp c ++ bs) = some (c, bs) := by
  by_cases h1 : c < 0x80
  · simp only [utf8EncodeCp, if_pos h1, List.cons_append, List.nil_append]
    simp only [utf8DecodeOne, if_pos h1]
  · by_cases h2 : c < 0x800
    · simp only [utf8EncodeCp, if_neg h1, if_pos h2, List.cons_append, List.nil_append]
      have e1 : ¬(0xC0 + c / 64 < 0x80) := by omega
      have e2 : ¬(0xC0 + c / 64 < 0xC0) := by omega
      have e3 : 0xC0 + c / 64 < 0xE0 := by omega
      have e4 : 0x80 ≤ 0x80 + c % 64 ∧ 0x80 + c % 64 < 0xC0 := by omega
      simp only [utf8DecodeOne, if_neg e1, if_neg e2, if_pos e3, utf8Tail2, if_pos e4]
      have e5 : (0xC0 + c / 64 - 0xC0) * 64 + (0x80 + c % 64 - 0x80) = c := by omega
      rw [e5]
    · by_cases h3 : c < 0x10000
      · simp only [utf8EncodeCp, if_neg h1, if_neg h2, if_pos h3, List.cons_append,
          List.nil_append]
        have e1 : ¬(0xE0 + c / 4096 < 0x80) := by omega
        have e2 : ¬(0xE0 + c / 4096 < 0xC0) := by omega
        have e3 : ¬(0xE0 + c / 4096 < 0xE0) := by omega
        have e4 : 0xE0 + c / 4096 < 0xF0 := by omega
        have e5 : (0x80 ≤ 0x80 + c / 64 % 64 ∧ 0x80 + c / 64 % 64 < 0xC0) ∧
            0x80 ≤ 0x80 + c % 64 ∧ 0x80 + c % 64 < 0xC0 := by omega
        simp only [utf8DecodeOne, if_neg e1, if_neg e2, if_neg e3, if_pos e4, utf8Tail3,
          if_pos e5]
        have e6 : (0xE0 + c / 4096 - 0xE0) * 4096 + (0x80 + c / 64 % 64 - 0x80) * 64 +
            (0x80 + c % 64 - 0x80) = c := by omega
        rw [e6]
      · simp only [utf8EncodeCp, if_neg h1, if_neg h2, if_neg h3, List.cons_append,
          List.nil_append]
        have e1 : ¬(0xF0 + c / 262144 < 0x80) := by omega
        have e2 : ¬(0xF0 + c / 262144 < 0xC0) := by omega
        have e3 : ¬(0xF0 + c / 262144 < 0xE0) := by omega
        have e4 : ¬(0xF0 + c / 262144 < 0xF0) := by omega
        have e5 : 0xF0 + c / 262144 < 0xF8 := by omega
        have e6 : (0x80 ≤ 0x80 + c / 4096 % 64 ∧ 0x80 + c / 4096 % 64 < 0xC0) ∧
            (0x80 ≤ 0x80 + c / 64 % 64 ∧ 0x80 + c / 64 % 64 < 0xC0) ∧
            0x80 ≤ 0x80 + c % 64 ∧ 0x80 + c % 64 < 0xC0 := by omega
        simp only [utf8DecodeOne, if_neg e1, if_neg e2, if_neg e3, if_neg e4, if_pos e5,
          utf8Tail4, if_pos e6]
        have e7 : (0xF0 + c / 262144 - 0xF0) * 262144 + (0x80 + c / 4096 % 64 - 0x80) * 4096 +
            (0x80 + c / 64 % 64 - 0x80) * 64 + (0x80 + c % 64 - 0x80) = c := by omega
        rw [e7]

theorem utf8EncodeCp_ne_nil (c : Nat) : utf8EncodeCp c ≠ [] := by
  unfold utf8EncodeCp
  split
  · simp
  · split
    · simp
    · split <;> simp

/-- The fuelled decoding loop inverts encoding whenever the fuel covers the
number of code points. -/
theorem utf8DecodeAux_encode :
    ∀ fuel s, s.length ≤ fuel → (∀ c ∈ s, c < 0x110000) →
      utf8DecodeAux fuel (utf8Encode s) = some s := by
  intro fuel
  induction fuel with
  | zero =>
    intro s hlen _
    have : s = [] := List.eq_nil_of_length_eq_zero (Nat.le_zero.mp hlen)
    subst this
    rfl
  | succ f ih =>
    intro s hlen hs
    match s with
    | [] => rfl
    | c :: rest =>
      have hc : c < 0x110000 := hs c (by simp)
      have hrest : ∀ x ∈ rest, x < 0x110000 := fun x hx => hs x (by simp [hx])
      have henc : utf8Encode (c :: rest) = utf8EncodeCp c ++ utf8Encode rest := by
        simp [utf8Encode]
      rw [henc]
      obtain ⟨b, t, hbt⟩ : ∃ b t, utf8EncodeCp c = b :: t := by
        cases h : utf8EncodeCp c with
        | nil => exact absurd h (utf8EncodeCp_ne_nil c)
        | cons b t => exact ⟨b, t, rfl⟩
      rw [hbt, List.cons_append]
      have hone : utf8DecodeOne (b :: (t ++ utf8Encode rest)) = some (c, utf8Encode rest) := by
        rw [← List.cons_append, ← hbt]
        exact utf8DecodeOne_encodeCp c hc _
      simp only [utf8DecodeAux, hone]
      rw [ih rest (by simp only [List.length_cons] at hlen; omega) hrest]
      rfl

/-- Each code point occupies at least one encoded byte. -/
theorem length_le_utf8Encode_length (s : PyStr) : s.length ≤ (utf8Encode s).length := by
  induction s with
  | nil => simp [utf8Encode]
  | cons c rest ih =>
    have : utf8Encode (c :: rest) = utf8EncodeCp c ++ utf8Encode rest := by simp [utf8Encode]
    rw [this, List.length_append, List.length_cons]
    have h1 : 1 ≤ (utf8EncodeCp c).length := by
      cases h : utf8EncodeCp c with
      | nil => exact absurd h (utf8EncodeCp_ne_nil c)
      | cons b t => simp
    omega

/-- UTF-8 round trip on strings of in-range code points. -/
theorem utf8Decode_encode (s : PyStr) (hs : ∀ c ∈ s, c < 0x110000) :
    utf8Decode (utf8Encode s) = some s :=
  utf8DecodeAux_encode (utf8Encode s).length s
    (Nat.le_trans (length_le_utf8Encode_length s) le_rfl) hs

/-- UTF-8 encoding is injective on in-range strings (used for the
associated-data binding argument of envelope encryption). -/
theorem utf8Encode_inj (s t : PyStr) (hs : ∀ c ∈ s, c < 0x110000)
    (ht : ∀ c ∈ t, c < 0x110000) (h : utf8Encode s = utf8Encode t) : s = t := by
  have := utf8Decode_encode s hs
  rw [h, utf8Decode_encode t ht] at this
  exact (Option.some.injEq _ _).mp this.symm

/-! ## Compact JSON (`json.dumps(..., separators=(",", ":"), ensure_ascii=False)`
and the fragment of `json.loads` that cursor payloads exercise)

Cursor payloads contain only strings, booleans, arrays and objects (numbers
never occur: `N` values travel as decimal strings), so the JSON model covers
exactly that fragment. -/

/-- JSON values as produced by the cursor encoder. -/
inductive Jv : Type
  | s (str : PyStr)
  | b (bool : Bool)
  | arr (xs : List Jv)
  | obj (kvs : List (PyStr × Jv))

/-- Lowercase hex digit code point, as in Python's `\\u00xx` escapes. -/
def hexDigitCp (n : Nat) : Nat := if n < 10 then 48 + n else 87 + n

/-- Numeric value of a hex digit code point. -/
def hexValCp (c : Nat) : Option Nat :=
  if 48 ≤ c ∧ c ≤ 57 then some (c - 48)
  else if 97 ≤ c ∧ c ≤ 102 then some (c - 87)
  else if 65 ≤ c ∧ c ≤ 70 then some (c - 55)
  else none

/-- Escape one code point the way `json.dumps` does with `ensure_ascii=False`:
quote and backslash get escaped, the five shorthand control characters use
their two-character escapes, other control characters use `\\u00xx`, and
everything else is emitted literally. -/
def escCp (c : Nat) : List Nat :=
  if c = 34 then [92, 34]
  else if c = 92 then [92, 92]
  else if c = 8 then [92, 98]
  else if c = 9 then [92, 116]
  else if c = 10 then [92, 110]
  else if c = 12 then [92, 102]
  else if c = 13 then [92, 114]
  else if c < 32 then [92, 117, 48, 48, hexDigitCp (c / 16), hexDigitCp (c % 16)]
  else [c]

/-- Serialized JSON string: quote, escaped body, quote. -/
def dumpStr (s : PyStr) : List Nat := 34 :: s.flatMap escCp ++ [34]

mutual

/-- Compact JSON serialization (`json.dumps` with `separators=(",", ":")`). -/
def Jv.dumps : Jv → List Nat
  | .s str => dumpStr str
  | .b true => [116, 114, 117, 101]
  | .b false => [102, 97, 108, 115, 101]
  | .arr xs => 91 :: dumpsItems xs ++ [93]
  | .obj kvs => 123 :: dumpsMembers kvs ++ [125]

/-- Array elements joined by commas. -/
def dumpsItems : List Jv → List Nat
  | [] => []
  | x :: xs => x.dumps ++ dumpsItemSep xs

/-- Comma-prefixed continuation of an array body. -/
def dumpsItemSep : List Jv → List Nat
  | [] => []
  | x :: xs => 44 :: (x.dumps ++ dumpsItemSep xs)

/-- Object members joined by commas, each member `"key":value`. -/
def dumpsMembers : List (PyStr × Jv) → List Nat
  | [] => []
  | (k, v) :: ms => dumpStr k ++ 58 :: (v.dumps ++ dumpsMemberSep ms)

/-- Comma-prefixed continuation of an object body. -/
def dumpsMemberSep : List (PyStr × Jv) → List Nat
  | [] => []
  | (k, v) :: ms => 44 :: (dumpStr k ++ 58 :: (v.dumps ++ dumpsMemberSep ms))

end

/-- Parse a JSON string body after the opening quote, undoing `escCp`. -/
def parseJStr : List Nat → Option (PyStr × List Nat)
  | [] => none
  | c :: rest =>
    if c = 34 then some ([], rest)
    else if c = 92 then
      match rest with
      | [] => none
      | e :: r =>
        if e = 34 then (parseJStr r).map (fun p => (34 :: p.1, p.2))
        else if e = 92 then (parseJStr r).map (fun p => (92 :: p.1, p.2))
        else if e = 47 then (parseJStr r).map (fun p => (47 :: p.1, p.2))
        else if e = 98 then (parseJStr r).map (fun p => (8 :: p.1, p.2))
        else if e = 116 then (parseJStr r).map (fun p => (9 :: p.1, p.2))
        else if e = 110 then (parseJStr r).map (fun p => (10 :: p.1, p.2))
        else if e = 102 then (parseJStr r).map (fun p => (12 :: p.1, p.2))
        else if e = 114 then (parseJStr r).map (fun p => (13 :: p.1, p.2))
        else if e = 117 then
          match r with
          | h1 :: h2 :: h3 :: h4 :: r2 =>
            match hexValCp h1, hexValCp h2, hexValCp h3, hexValCp h4 with
            | some a, some b, some c', some d =>
              (parseJStr r2).map (fun p => ((((a * 16 + b) * 16 + c') * 16 + d) :: p.1, p.2))
            | _, _, _, _ => none
          | _ => none
        else none
    else (parseJStr rest).map (fun p => (c :: p.1, p.2))

mutual

/-- Fuelled parser for one JSON value of the compact fragment. -/
def parseJv : Nat → List Nat → Option (Jv × List Nat)
  | 0, _ => none
  | _ + 1, [] => none
  | fuel + 1, c :: rest =>
    if c = 34 then (parseJStr rest).map (fun p => (Jv.s p.1, p.2))
    else if c = 116 then
      match rest with
      | 114 :: 117 :: 101 :: r => some (.b true, r)
      | _ => none
    else if c = 102 then
      match rest with
      | 97 :: 108 :: 115 :: 101 :: r => some (.b false, r)
      | _ => none
    else if c = 91 then
      match rest with
      | [] => none
      | d :: r =>
        if d = 93 then some (.arr [], r)
        else (parseJvItems fuel (d :: r)).map (fun p => (Jv.arr p.1, p.2))
    else if c = 123 then
      match rest with
      | [] => none
      | d :: r =>
        if d = 125 then some (.obj [], r)
        else (parseJvMembers fuel (d :: r)).map (fun p => (Jv.obj p.1, p.2))
    else none

/-- Fuelled parser for a non-empty array body up to the closing bracket. -/
def parseJvItems : Nat → List Nat → Option (List Jv × List Nat)
  | 0, _ => none
  | fuel + 1, input =>
    match parseJv fuel input with
    | none => none
    | some (v, r) =>
      match r with
      | [] => none
      | d :: r2 =>
        if d = 44 then (parseJvItems fuel r2).map (fun p => (v :: p.1, p.2))
        else if d = 93 then some ([v], r2)
        else none

/-- Fuelled parser for a non-empty object body up to the closing brace. -/
def parseJvMembers : Nat → List Nat → Option (List (PyStr × Jv) × List Nat)
  | 0, _ => none
  | fuel + 1, input =>
    match input with
    | 34 :: r0 =>
      match parseJStr r0 with
      | none => none
      | some (k, r1) =>
        match r1 with
        | 58 :: r2 =>
          (match parseJv fuel r2 with
           | none => none
           | some (v, r3) =>
             match r3 with
             | [] => none
             | d :: r4 =>
               if d = 44 then (parseJvMembers fuel r4).map (fun p => ((k, v) :: p.1, p.2))
               else if d = 125 then some ([(k, v)], r4)
               else none)
        | _ => none
    | _ => none

end

/-- Model of `json.loads` on cursor payloads: parse one value consuming the
whole input; the byte length bounds the fuel the nesting can consume. -/
def jsonLoads (input : List Nat) : Option Jv :=
  match parseJv (input.length + 1) input with
  | some (j, []) => some j
  | _ => none

/-! ### Round trip of the compact JSON fragment -/

theorem hexValCp_hexDigit : ∀ n : Nat, n < 16 → hexValCp (hexDigitCp n) = some n := by decide


/-- Parsing one escaped code point undoes the escaping. -/
theorem parseJStr_esc (c : Nat) (rest : List Nat) :
    parseJStr (escCp c ++ rest) = (parseJStr rest).map (fun p => (c :: p.1, p.2)) := by
  by_cases h34 : c = 34
  · subst h34
    rw [show escCp 34 = [92, 34] from rfl, List.cons_append, List.cons_append,
      List.nil_append, parseJStr.eq_def]
    norm_num
  · by_cases h92 : c = 92
    · subst h92
      rw [show escCp 92 = [92, 92] from rfl, List.cons_append, List.cons_append,
        List.nil_append, parseJStr.eq_def]
      norm_num
    · by_cases h8 : c = 8
      · subst h8
        rw [show escCp 8 = [92, 98] from rfl, List.cons_append, List.cons_append,
          List.nil_append, parseJStr.eq_def]
        norm_num
      · by_cases h9 : c = 9
        · subst h9
          rw [show escCp 9 = [92, 116] from rfl, List.cons_append, List.cons_append,
            List.nil_append, parseJStr.eq_def]
          norm_num
        · by_cases h10 : c = 10
          · subst h10
            rw [show escCp 10 = [92, 110] from rfl, List.cons_append, List.cons_append,
              List.nil_append, parseJStr.eq_def]
            norm_num
          · by_cases h12 : c = 12
            · subst h12
              rw [show escCp 12 = [92, 102] from rfl, List.cons_append, List.cons_append,
                List.nil_append, parseJStr.eq_def]
              norm_num
            · by_cases h13 : c = 13
              · subst h13
                rw [show escCp 13 = [92, 114] from rfl, List.cons_append, List.cons_append,
                  List.nil_append, parseJStr.eq_def]
                norm_num
              · by_cases hctl : c < 32
                · have hd1 : c / 16 < 16 := by omega
                  have hd2 : c % 16 < 16 := by omega
                  simp only [escCp, if_neg h34, if_neg h92, if_neg h8, if_neg h9, if_neg h10,
                    if_neg h12, if_neg h13, if_pos hctl, List.cons_append, List.nil_append]
                  rw [parseJStr.eq_def]
                  simp only [hexValCp_hexDigit _ hd1, hexValCp_hexDigit _ hd2]
                  norm_num [hexValCp]
                  have e : c / 16 * 16 + c % 16 = c := by omega
                  rw [e]
                · simp only [escCp, if_neg h34, if_neg h92, if_neg h8, if_neg h9, if_neg h10,
                    if_neg h12, if_neg h13, if_neg hctl, List.cons_append, List.nil_append]
                  rw [parseJStr.eq_def]
                  simp only [if_neg h34, if_neg h92]

/-- Parsing a serialized string body stops exactly at the closing quote. -/
theorem parseJStr_dumpBody (s : PyStr) (rest : List Nat) :
    parseJStr (s.flatMap escCp ++ 34 :: rest) = some (s, rest) := by
  induction s with
  | nil =>
    rw [List.flatMap_nil, List.nil_append, parseJStr.eq_def]
    norm_num
  | cons c cs ih =>
    rw [List.flatMap_cons, List.append_assoc, parseJStr_esc, ih]
    rfl

/-- Every serialized value begins with one of the five start characters. -/
theorem Jv.dumps_head (j : Jv) :
    ∃ c t, j.dumps = c :: t ∧ (c = 34 ∨ c = 116 ∨ c = 102 ∨ c = 91 ∨ c = 123) := by
  cases j with
  | s str => exact ⟨34, _, rfl, by norm_num⟩
  | b bv =>
    cases bv with
    | true => exact ⟨116, _, rfl, by norm_num⟩
    | false => exact ⟨102, _, rfl, by norm_num⟩
  | arr xs => exact ⟨91, _, rfl, by norm_num⟩
  | obj kvs => exact ⟨123, _, rfl, by norm_num⟩

theorem Jv.dumps_len_pos (j : Jv) : 1 ≤ j.dumps.length := by
  obtain ⟨c, t, h, _⟩ := j.dumps_head
  simp [h]

theorem dumpStr_len (s : PyStr) : (dumpStr s).length = (s.flatMap escCp).length + 2 := by
  simp [dumpStr]

mutual

/-- Parsing a serialized value at sufficient fuel recovers it exactly. -/
theorem jvRt : ∀ (j : Jv) (fuel : Nat) (rest : List Nat),
    j.dumps.length < fuel → parseJv fuel (j.dumps ++ rest) = some (j, rest)
  | j, 0, rest => by
    intro hf
    exact absurd hf (by omega)
  | .s str, fuel + 1, rest => by
    intro _
    rw [show Jv.dumps (.s str) ++ rest = 34 :: (str.flatMap escCp ++ 34 :: rest) by
      simp [Jv.dumps, dumpStr]]
    rw [parseJv.eq_def]
    norm_num [parseJStr_dumpBody]
  | .b true, fuel + 1, rest => by
    intro _
    rw [show Jv.dumps (.b true) ++ rest = 116 :: 114 :: 117 :: 101 :: rest from rfl]
    rw [parseJv.eq_def]
    norm_num
  | .b false, fuel + 1, rest => by
    intro _
    rw [show Jv.dumps (.b false) ++ rest = 102 :: 97 :: 108 :: 115 :: 101 :: rest from rfl]
    rw [parseJv.eq_def]
    norm_num
  | .arr [], fuel + 1, rest => by
    intro _
    rw [show Jv.dumps (.arr []) ++ rest = 91 :: 93 :: rest from rfl]
    rw [parseJv.eq_def]
    norm_num
  | .arr (x :: xs), fuel + 1, rest => by
    intro hf
    obtain ⟨c, t, hct, hc5⟩ := x.dumps_head
    have hc93 : ¬ c = 93 := by rcases hc5 with h | h | h | h | h <;> omega
    have hsplit : Jv.dumps (.arr (x :: xs)) ++ rest
        = 91 :: (dumpsItems (x :: xs) ++ 93 :: rest) := by
      simp [Jv.dumps]
    have hcons : dumpsItems (x :: xs) ++ 93 :: rest
        = c :: (t ++ dumpsItemSep xs ++ 93 :: rest) := by
      simp [dumpsItems, hct]
    have hitems := jvRtItems x xs fuel rest (by
      have : Jv.dumps (.arr (x :: xs)) = 91 :: dumpsItems (x :: xs) ++ [93] := rfl
      rw [this] at hf
      simp at hf
      omega)
    rw [hsplit, parseJv.eq_def]
    norm_num
    rw [hcons]
    simp only [if_neg hc93]
    rw [← hcons, hitems]
    rfl
  | .obj [], fuel + 1, rest => by
    intro _
    rw [show Jv.dumps (.obj []) ++ rest = 123 :: 125 :: rest from rfl]
    rw [parseJv.eq_def]
    norm_num
  | .obj ((k, v) :: ms), fuel + 1, rest => by
    intro hf
    have hsplit : Jv.dumps (.obj ((k, v) :: ms)) ++ rest
        = 123 :: (dumpsMembers ((k, v) :: ms) ++ 125 :: rest) := by
      simp [Jv.dumps]
    have hcons : dumpsMembers ((k, v) :: ms) ++ 125 :: rest
        = 34 :: (k.flatMap escCp ++ (34 :: 58 :: (v.dumps ++ dumpsMemberSep ms)
            ++ 125 :: rest)) := by
      simp [dumpsMembers, dumpStr]
    have hmembers := jvRtMembers k v ms fuel rest (by
      have : Jv.dumps (.obj ((k, v) :: ms)) = 123 :: dumpsMembers ((k, v) :: ms) ++ [125] := rfl
      rw [this] at hf
      simp at hf
      omega)
    rw [hsplit, parseJv.eq_def]
    norm_num
    rw [hcons]
    norm_num
    have e : dumpsMembers ((k, v) :: ms) ++ 125 :: rest
        = 34 :: (k.flatMap escCp ++ 34 :: 58 :: (v.dumps ++ (dumpsMemberSep ms ++ 125 :: rest))) := by
      simp [dumpsMembers, dumpStr]
    rw [e] at hmembers
    exact hmembers

/-- Parsing a serialized non-empty array body recovers the elements. -/
theorem jvRtItems : ∀ (x : Jv) (xs : List Jv) (fuel : Nat) (rest : List Nat),
    (dumpsItems (x :: xs)).length + 1 < fuel →
    parseJvItems fuel (dumpsItems (x :: xs) ++ 93 :: rest) = some (x :: xs, rest)
  | x, xs, 0, rest => by
    intro hf
    exact absurd hf (by omega)
  | x, [], fuel + 1, rest => by
    intro hf
    have hx : x.dumps.length < fuel := by
      simp [dumpsItems, dumpsItemSep] at hf
      omega
    have hitems : dumpsItems [x] ++ 93 :: rest = x.dumps ++ 93 :: rest := by
      simp [dumpsItems, dumpsItemSep]
    rw [hitems, parseJvItems.eq_def]
    have hjv := jvRt x fuel (93 :: rest) hx
    simp only [hjv]
    norm_num
  | x, y :: ys, fuel + 1, rest => by
    intro hf
    have hlen : (dumpsItems (x :: y :: ys)).length
        = x.dumps.length + 1 + (dumpsItems (y :: ys)).length := by
      simp [dumpsItems, dumpsItemSep]
      omega
    have hxpos := x.dumps_len_pos
    have hx : x.dumps.length < fuel := by omega
    have hys : (dumpsItems (y :: ys)).length + 1 < fuel := by omega
    have hitems : dumpsItems (x :: y :: ys) ++ 93 :: rest
        = x.dumps ++ 44 :: (dumpsItems (y :: ys) ++ 93 :: rest) := by
      simp [dumpsItems, dumpsItemSep]
    rw [hitems, parseJvItems.eq_def]
    have hjv := jvRt x fuel (44 :: (dumpsItems (y :: ys) ++ 93 :: rest)) hx
    have hrec := jvRtItems y ys fuel rest hys
    simp only [hjv]
    norm_num [hrec]

/-- Parsing a serialized non-empty object body recovers the members. -/
theorem jvRtMembers : ∀ (k : PyStr) (v : Jv) (ms : List (PyStr × Jv)) (fuel : Nat)
    (rest : List Nat),
    (dumpsMembers ((k, v) :: ms)).length + 1 < fuel →
    parseJvMembers fuel (dumpsMembers ((k, v) :: ms) ++ 125 :: rest) = some ((k, v) :: ms, rest)
  | k, v, ms, 0, rest => by
    intro hf
    exact absurd hf (by omega)
  | k, v, [], fuel + 1, rest => by
    intro hf
    have hlen : (dumpsMembers [(k, v)]).length
        = (dumpStr k).length + 1 + v.dumps.length := by
      simp [dumpsMembers, dumpsMemberSep]
      omega
    have hv : v.dumps.length < fuel := by omega
    have hm : dumpsMembers [(k, v)] ++ 125 :: rest
        = 34 :: (k.flatMap escCp ++ 34 :: (58 :: (v.dumps ++ 125 :: rest))) := by
      simp [dumpsMembers, dumpsMemberSep, dumpStr]
    rw [hm, parseJvMembers.eq_def]
    norm_num [parseJStr_dumpBody]
    rw [jvRt v fuel (125 :: rest) hv]
    norm_num
  | k, v, (k2, v2) :: ms2, fuel + 1, rest => by
    intro hf
    have hlen : (dumpsMembers ((k, v) :: (k2, v2) :: ms2)).length
        = (dumpStr k).length + 1 + v.dumps.length + 1
          + (dumpsMembers ((k2, v2) :: ms2)).length := by
      simp [dumpsMembers, dumpsMemberSep, dumpStr]
      omega
    have hkpos : 2 ≤ (dumpStr k).length := by
      rw [dumpStr_len]
      omega
    have hvpos := v.dumps_len_pos
    have hv : v.dumps.length < fuel := by omega
    have hms : (dumpsMembers ((k2, v2) :: ms2)).length + 1 < fuel := by omega
    have hm : dumpsMembers ((k, v) :: (k2, v2) :: ms2) ++ 125 :: rest
        = 34 :: (k.flatMap escCp ++ 34 :: (58 :: (v.dumps
            ++ 44 :: (dumpsMembers ((k2, v2) :: ms2) ++ 125 :: rest)))) := by
      simp [dumpsMembers, dumpsMemberSep, dumpStr]
    rw [hm, parseJvMembers.eq_def]
    norm_num [parseJStr_dumpBody]
    rw [jvRt v fuel (44 :: (dumpsMembers ((k2, v2) :: ms2) ++ 125 :: rest)) hv]
    norm_num
    rw [jvRtMembers k2 v2 ms2 fuel rest hms]

end

/-- Model of `json.loads` inverting `json.dumps` on the compact fragment. -/
theorem jsonLoads_dumps (j : Jv) : jsonLoads j.dumps = some j := by
  unfold jsonLoads
  have h := jvRt j (j.dumps.length + 1) [] (by omega)
  rw [List.append_nil] at h
  rw [h]

/-! ## Wire attribute values and the cursor codec of `query.py`

`_av_to_json` / `_av_from_json` convert between the tagged wire union and
its JSON rendering inside cursors.  The tag keys appear as explicit
code-point lists: `[83] = "S"`, `[78] = "N"`, `[66] = "B"`,
`[66,79,79,76] = "BOOL"`, `[78,85,76,76] = "NULL"`, `[83,83] = "SS"`,
`[78,83] = "NS"`, `[66,83] = "BS"`, `[76] = "L"`, `[77] = "M"`.

The Python encoder iterates `sorted(keys)` and recurses per value; the model
recurses structurally and sorts the produced association list afterwards,
which produces the identical object because sorting by key commutes with a
per-value map. -/

/-- Wire attribute values (`{S,N,B,BOOL,NULL,SS,NS,BS,L,M}`). -/
inductive AttrVal : Type
  | S (s : PyStr)
  | N (n : PyStr)
  | B (b : PyBytes)
  | BOOL (b : Bool)
  | NULL
  | SS (xs : List PyStr)
  | NS (xs : List PyStr)
  | BS (xs : List PyBytes)
  | L (xs : List AttrVal)
  | M (kvs : List (PyStr × AttrVal))

mutual

/-- Model of `_av_to_json`: each value becomes a single-key JSON object
tagged with its wire kind; binary payloads are standard-base64 strings;
map keys are emitted in sorted order. -/
def avToJson : AttrVal → Jv
  | .S s => .obj [([83], .s s)]
  | .N n => .obj [([78], .s n)]
  | .B b => .obj [([66], .s (b64Encode b))]
  | .BOOL bv => .obj [([66, 79, 79, 76], .b bv)]
  | .NULL => .obj [([78, 85, 76, 76], .b true)]
  | .SS xs => .obj [([83, 83], .arr (xs.map Jv.s))]
  | .NS xs => .obj [([78, 83], .arr (xs.map Jv.s))]
  | .BS xs => .obj [([66, 83], .arr (xs.map (fun b => Jv.s (b64Encode b))))]
  | .L xs => .obj [([76], .arr (avListToJson xs))]
  | .M kvs => .obj [([77], .obj (sortKvs (avKvsToJson kvs)))]

/-- Elementwise `_av_to_json` over a wire list. -/
def avListToJson : List AttrVal → List Jv
  | [] => []
  | x :: xs => avToJson x :: avListToJson xs

/-- Valuewise `_av_to_json` over a wire map's entries. -/
def avKvsToJson : List (PyStr × AttrVal) → List (PyStr × Jv)
  | [] => []
  | (k, v) :: rest => (k, avToJson v) :: avKvsToJson rest

end

/-- All-strings check used by the `SS`/`NS` branches of `_av_from_json`. -/
def jStrList : List Jv → Option (List PyStr)
  | [] => some []
  | .s s :: rest => (jStrList rest).map (s :: ·)
  | _ => none

/-- Base64-decode every element, as the `BS` branch of `_av_from_json` does. -/
def jB64List : List Jv → Option (List PyBytes)
  | [] => some []
  | .s s :: rest =>
    match b64Decode s, jB64List rest with
    | some b, some tail => some (b :: tail)
    | _, _ => none
  | _ => none

mutual

/-- Model of `_av_from_json`: accept exactly a single-key tagged object and
rebuild the wire value, base64-decoding binary payloads and sorting map
keys; `none` models the `ValueError` raised on any shape mismatch. -/
def avFromJson : Jv → Option AttrVal
  | .obj [([83], .s s)] => some (.S s)
  | .obj [([78], .s s)] => some (.N s)
  | .obj [([66], .s s)] => (b64Decode s).map .B
  | .obj [([66, 79, 79, 76], .b bv)] => some (.BOOL bv)
  | .obj [([78, 85, 76, 76], .b true)] => some .NULL
  | .obj [([83, 83], .arr xs)] => (jStrList xs).map .SS
  | .obj [([78, 83], .arr xs)] => (jStrList xs).map .NS
  | .obj [([66, 83], .arr xs)] => (jB64List xs).map .BS
  | .obj [([76], .arr xs)] => (avListFromJson xs).map .L
  | .obj [([77], .obj kvs)] => (avKvsFromJson kvs).map (fun l => .M (sortKvs l))
  | _ => none

/-- Elementwise `_av_from_json` over a JSON array. -/
def avListFromJson : List Jv → Option (List AttrVal)
  | [] => some []
  | x :: xs =>
    match avFromJson x, avListFromJson xs with
    | some v, some tail => some (v :: tail)
    | _, _ => none

/-- Valuewise `_av_from_json` over a JSON object's entries. -/
def avKvsFromJson : List (PyStr × Jv) → Option (List (PyStr × AttrVal))
  | [] => some []
  | (k, x) :: rest =>
    match avFromJson x, avKvsFromJson rest with
    | some v, some tail => some ((k, v) :: tail)
    | _, _ => none

end

mutual

/-- A wire value is canonical when byte payloads are in range, strings hold
valid scalar values, and every nested map is strictly key-sorted: the shape
in which a decoded Python value is observed. -/
def avCanonical : AttrVal → Bool
  | .S s => s.all validCp
  | .N n => n.all validCp
  | .B b => b.all (fun x => decide (x < 256))
  | .BOOL _ => true
  | .NULL => true
  | .SS xs => xs.all (fun s => s.all validCp)
  | .NS xs => xs.all (fun s => s.all validCp)
  | .BS xs => xs.all (fun b => b.all (fun x => decide (x < 256)))
  | .L xs => avListCanonical xs
  | .M kvs => keysSorted kvs && avKvsCanonical kvs

/-- Elementwise canonicality. -/
def avListCanonical : List AttrVal → Bool
  | [] => true
  | x :: xs => avCanonical x && avListCanonical xs

/-- Entrywise canonicality, including key validity. -/
def avKvsCanonical : List (PyStr × AttrVal) → Bool
  | [] => true
  | (k, v) :: rest => k.all validCp && avCanonical v && avKvsCanonical rest

end

theorem jStrList_map (xs : List PyStr) : jStrList (xs.map Jv.s) = some xs := by
  induction xs with
  | nil => rfl
  | cons s rest ih => simp [jStrList, ih]

theorem jB64List_map (xs : List PyBytes) (hb : ∀ b ∈ xs, ∀ x ∈ b, x < 256) :
    jB64List (xs.map (fun b => Jv.s (b64Encode b))) = some xs := by
  induction xs with
  | nil => rfl
  | cons b rest ih =>
    have hdec := b64Decode_encode b (hb b (by simp))
    have hrest := ih (fun y hy x hx => hb y (by simp [hy]) x hx)
    simp [jB64List, hdec, hrest]

/-- Replacing values leaves the key order unchanged. -/
theorem keysSorted_avKvsToJson :
    ∀ kvs : List (PyStr × AttrVal), keysSorted (avKvsToJson kvs) = keysSorted kvs := by
  intro kvs
  induction kvs with
  | nil => rfl
  | cons p rest ih =>
    obtain ⟨k, v⟩ := p
    cases rest with
    | nil => rfl
    | cons q rest2 =>
      obtain ⟨k2, v2⟩ := q
      simp only [avKvsToJson, keysSorted] at ih ⊢
      rw [ih]

mutual

/-- `_av_from_json` inverts `_av_to_json` on canonical wire values. -/
theorem avRt : ∀ v : AttrVal, avCanonical v = true → avFromJson (avToJson v) = some v
  | .S s, _ => rfl
  | .N n, _ => rfl
  | .B b, hc => by
    have : ∀ x ∈ b, x < 256 := by
      intro x hx
      have := (List.all_eq_true.mp hc) x hx
      simpa using this
    simp [avToJson, avFromJson, b64Decode_encode b this]
  | .BOOL bv, _ => by cases bv <;> rfl
  | .NULL, _ => rfl
  | .SS xs, _ => by simp [avToJson, avFromJson, jStrList_map]
  | .NS xs, _ => by simp [avToJson, avFromJson, jStrList_map]
  | .BS xs, hc => by
    have : ∀ b ∈ xs, ∀ x ∈ b, x < 256 := by
      intro b hb x hx
      have := (List.all_eq_true.mp hc) b hb
      have := (List.all_eq_true.mp this) x hx
      simpa using this
    simp [avToJson, avFromJson, jB64List_map xs this]
  | .L xs, hc => by
    have h := avListRt xs (by simpa [avCanonical] using hc)
    simp [avToJson, avFromJson, h]
  | .M kvs, hc => by
    have hsorted : keysSorted kvs = true := by
      simp [avCanonical] at hc
      exact hc.1
    have hvals : avKvsCanonical kvs = true := by
      simp [avCanonical] at hc
      exact hc.2
    have h := avKvsRt kvs hvals
    have hid : sortKvs (avKvsToJson kvs) = avKvsToJson kvs :=
      sortKvs_of_sorted _ (by rw [keysSorted_avKvsToJson]; exact hsorted)
    have hid2 : sortKvs kvs = kvs := sortKvs_of_sorted _ hsorted
    simp [avToJson, avFromJson, hid, h, hid2]

/-- Elementwise round trip. -/
theorem avListRt : ∀ xs : List AttrVal, avListCanonical xs = true →
    avListFromJson (avListToJson xs) = some xs
  | [], _ => rfl
  | x :: xs, hc => by
    have hx : avCanonical x = true := by
      simp [avListCanonical] at hc
      exact hc.1
    have hxs : avListCanonical xs = true := by
      simp [avListCanonical] at hc
      exact hc.2
    simp [avListToJson, avListFromJson, avRt x hx, avListRt xs hxs]

/-- Entrywise round trip. -/
theorem avKvsRt : ∀ kvs : List (PyStr × AttrVal), avKvsCanonical kvs = true →
    avKvsFromJson (avKvsToJson kvs) = some kvs
  | [], _ => rfl
  | (k, v) :: rest, hc => by
    have hv : avCanonical v = true := by
      simp [avKvsCanonical] at hc
      exact hc.1.2
    have hrest : avKvsCanonical rest = true := by
      simp [avKvsCanonical] at hc
      exact hc.2
    simp [avKvsToJson, avKvsFromJson, avRt v hv, avKvsRt rest hrest]

end

/-! ### Valid code points propagate from wire values to serialized payloads -/

theorem validCp_lt (c : Nat) (h : validCp c = true) : c < 0x110000 := by
  simp [validCp] at h
  omega

/-- Base64 output consists of alphabet digits and padding. -/
theorem b64EncodeWith_mem (digit : Nat → Nat) :
    ∀ n (bs : PyBytes), bs.length ≤ n → (∀ b ∈ bs, b < 256) →
      ∀ c ∈ b64EncodeWith digit bs, (∃ i, i < 64 ∧ c = digit i) ∨ c = 61 := by
  intro n
  induction n with
  | zero =>
    intro bs hlen _ c hc
    have : bs = [] := List.eq_nil_of_length_eq_zero (Nat.le_zero.mp hlen)
    subst this
    simp [b64EncodeWith] at hc
  | succ n ih =>
    intro bs hlen hb c hc
    match bs with
    | [] => simp [b64EncodeWith] at hc
    | [a] =>
      have ha : a < 256 := hb a (by simp)
      simp only [b64EncodeWith, List.mem_cons, List.mem_singleton, List.not_mem_nil,
        or_false] at hc
      rcases hc with rfl | rfl | rfl | rfl
      · exact Or.inl ⟨a / 4, by omega, rfl⟩
      · exact Or.inl ⟨a % 4 * 16, by omega, rfl⟩
      · exact Or.inr rfl
      · exact Or.inr rfl
    | [a, b] =>
      have ha : a < 256 := hb a (by simp)
      have hb2 : b < 256 := hb b (by simp)
      simp only [b64EncodeWith, List.mem_cons, List.mem_singleton, List.not_mem_nil,
        or_false] at hc
      rcases hc with rfl | rfl | rfl | rfl
      · exact Or.inl ⟨a / 4, by omega, rfl⟩
      · exact Or.inl ⟨a % 4 * 16 + b / 16, by omega, rfl⟩
      · exact Or.inl ⟨b % 16 * 4, by omega, rfl⟩
      · exact Or.inr rfl
    | a :: b :: c' :: rest =>
      have ha : a < 256 := hb a (by simp)
      have hb2 : b < 256 := hb b (by simp)
      have hc' : c' < 256 := hb c' (by simp)
      simp only [b64EncodeWith, List.mem_cons] at hc
      rcases hc with rfl | rfl | rfl | rfl | hm
      · exact Or.inl ⟨a / 4, by omega, rfl⟩
      · exact Or.inl ⟨a % 4 * 16 + b / 16, by omega, rfl⟩
      · exact Or.inl ⟨b % 16 * 4 + c' / 64, by omega, rfl⟩
      · exact Or.inl ⟨c' % 64, by omega, rfl⟩
      · exact ih rest (by simp only [List.length_cons] at hlen; omega)
          (fun x hx => hb x (by simp [hx])) c hm

theorem b64Encode_valid (bs : PyBytes) (hb : ∀ b ∈ bs, b < 256) :
    ∀ c ∈ b64Encode bs, c < 0x110000 := by
  intro c hc
  rcases b64EncodeWith_mem b64DigitStd bs.length bs le_rfl hb c hc with ⟨i, hi, rfl⟩ | rfl
  · have hall : ∀ i : Nat, i < 64 → b64DigitStd i < 0x110000 := by decide
    exact hall i hi
  · omega

theorem hexDigitCp_lt (n : Nat) (h : n < 16) : hexDigitCp n < 0x110000 := by
  unfold hexDigitCp
  split <;> omega

theorem escCp_valid (c : Nat) (h : validCp c = true) : ∀ x ∈ escCp c, x < 0x110000 := by
  intro x hx
  by_cases h34 : c = 34
  · subst h34
    simp only [show escCp 34 = [92, 34] from rfl, List.mem_cons, List.mem_singleton,
      List.not_mem_nil, or_false] at hx
    rcases hx with rfl | rfl <;> omega
  · by_cases h92 : c = 92
    · subst h92
      simp only [show escCp 92 = [92, 92] from rfl, List.mem_cons, List.mem_singleton,
        List.not_mem_nil, or_false] at hx
      rcases hx with rfl | rfl <;> omega
    · by_cases h8 : c = 8
      · subst h8
        simp only [show escCp 8 = [92, 98] from rfl, List.mem_cons, List.mem_singleton,
          List.not_mem_nil, or_false] at hx
        rcases hx with rfl | rfl <;> omega
      · by_cases h9 : c = 9
        · subst h9
          simp only [show escCp 9 = [92, 116] from rfl, List.mem_cons, List.mem_singleton,
            List.not_mem_nil, or_false] at hx
          rcases hx with rfl | rfl <;> omega
        · by_cases h10 : c = 10
          · subst h10
            simp only [show escCp 10 = [92, 110] from rfl, List.mem_cons,
              List.mem_singleton, List.not_mem_nil, or_false] at hx
            rcases hx with rfl | rfl <;> omega
          · by_cases h12 : c = 12
            · subst h12
              simp only [show escCp 12 = [92, 102] from rfl, List.mem_cons,
                List.mem_singleton, List.not_mem_nil, or_false] at hx
              rcases hx with rfl | rfl <;> omega
            · by_cases h13 : c = 13
              · subst h13
                simp only [show escCp 13 = [92, 114] from rfl, List.mem_cons,
                  List.mem_singleton, List.not_mem_nil, or_false] at hx
                rcases hx with rfl | rfl <;> omega
              · by_cases hctl : c < 32
                · simp only [escCp, if_neg h34, if_neg h92, if_neg h8, if_neg h9,
                    if_neg h10, if_neg h12, if_neg h13, if_pos hctl, List.mem_cons,
                    List.mem_singleton, List.not_mem_nil, or_false] at hx
                  rcases hx with rfl | rfl | rfl | rfl | rfl | rfl
                  · omega
                  · omega
                  · omega
                  · omega
                  · exact hexDigitCp_lt _ (by omega)
                  · exact hexDigitCp_lt _ (by omega)
                · simp only [escCp, if_neg h34, if_neg h92, if_neg h8, if_neg h9,
                    if_neg h10, if_neg h12, if_neg h13, if_neg hctl,
                    List.mem_singleton] at hx
                  subst hx
                  exact validCp_lt _ h

theorem dumpStr_valid (s : PyStr) (h : ∀ c ∈ s, validCp c = true) :
    ∀ x ∈ dumpStr s, x < 0x110000 := by
  intro x hx
  simp only [dumpStr, List.mem_cons, List.mem_append, List.mem_flatMap,
    List.mem_singleton] at hx
  rcases hx with (rfl | ⟨c, hc, hxc⟩) | rfl | hx0
  · omega
  · exact escCp_valid c (h c hc) x hxc
  · omega
  · simp at hx0

theorem dumpsItemSep_cons (y : Jv) (ys : List Jv) :
    dumpsItemSep (y :: ys) = 44 :: dumpsItems (y :: ys) := rfl

theorem dumpsMemberSep_cons (k2 : PyStr) (v2 : Jv) (ms : List (PyStr × Jv)) :
    dumpsMemberSep ((k2, v2) :: ms) = 44 :: dumpsMembers ((k2, v2) :: ms) := rfl

mutual

/-- Well-formed JSON: every string and key holds valid scalar values. -/
def jvWf : Jv → Bool
  | .s s => s.all validCp
  | .b _ => true
  | .arr xs => jvListWf xs
  | .obj kvs => jvKvsWf kvs

/-- Elementwise well-formedness. -/
def jvListWf : List Jv → Bool
  | [] => true
  | x :: xs => jvWf x && jvListWf xs

/-- Entrywise well-formedness, including keys. -/
def jvKvsWf : List (PyStr × Jv) → Bool
  | [] => true
  | (k, v) :: rest => k.all validCp && jvWf v && jvKvsWf rest

end

mutual

/-- Serialized well-formed JSON stays within valid code points. -/
theorem jvWf_dumps : ∀ j : Jv, jvWf j = true → ∀ x ∈ j.dumps, x < 0x110000
  | .s s, h => by
    intro x hx
    refine dumpStr_valid s ?_ x hx
    intro c hc
    exact List.all_eq_true.mp (by simpa [jvWf] using h) c hc
  | .b true, _ => by intro x hx; simp [Jv.dumps] at hx; omega
  | .b false, _ => by intro x hx; simp [Jv.dumps] at hx; omega
  | .arr xs, h => by
    intro x hx
    simp only [Jv.dumps, List.mem_cons, List.mem_append, List.mem_singleton] at hx
    rcases hx with (rfl | hm) | rfl | hx0
    · omega
    · exact jvListWf_dumpsItems xs (by simpa [jvWf] using h) x hm
    · omega
    · simp at hx0
  | .obj kvs, h => by
    intro x hx
    simp only [Jv.dumps, List.mem_cons, List.mem_append, List.mem_singleton] at hx
    rcases hx with (rfl | hm) | rfl | hx0
    · omega
    · exact jvKvsWf_dumpsMembers kvs (by simpa [jvWf] using h) x hm
    · omega
    · simp at hx0

/-- Array bodies stay within valid code points. -/
theorem jvListWf_dumpsItems : ∀ xs : List Jv, jvListWf xs = true →
    ∀ x ∈ dumpsItems xs, x < 0x110000
  | [], _ => by intro x hx; simp [dumpsItems] at hx
  | j :: xs, h => by
    intro x hx
    have h1 : jvWf j = true := by
      have := h
      simp only [jvListWf, Bool.and_eq_true] at this
      exact this.1
    have h2 : jvListWf xs = true := by
      have := h
      simp only [jvListWf, Bool.and_eq_true] at this
      exact this.2
    simp only [dumpsItems, List.mem_append] at hx
    rcases hx with hm | hm
    · exact jvWf_dumps j h1 x hm
    · cases xs with
      | nil => simp [dumpsItemSep] at hm
      | cons y ys =>
        rw [dumpsItemSep_cons] at hm
        simp only [List.mem_cons] at hm
        rcases hm with rfl | hm
        · omega
        · exact jvListWf_dumpsItems (y :: ys) h2 x hm

/-- Object bodies stay within valid code points. -/
theorem jvKvsWf_dumpsMembers : ∀ kvs : List (PyStr × Jv), jvKvsWf kvs = true →
    ∀ x ∈ dumpsMembers kvs, x < 0x110000
  | [], _ => by intro x hx; simp [dumpsMembers] at hx
  | (k, v) :: rest, h => by
    intro x hx
    have hk : k.all validCp = true := by
      have := h
      simp only [jvKvsWf, Bool.and_eq_true] at this
      exact this.1.1
    have hv : jvWf v = true := by
      have := h
      simp only [jvKvsWf, Bool.and_eq_true] at this
      exact this.1.2
    have hrest : jvKvsWf rest = true := by
      have := h
      simp only [jvKvsWf, Bool.and_eq_true] at this
      exact this.2
    have hmem : dumpsMembers ((k, v) :: rest)
        = dumpStr k ++ 58 :: (v.dumps ++ dumpsMemberSep rest) := rfl
    rw [hmem] at hx
    simp only [List.mem_append, List.mem_cons] at hx
    rcases hx with hm | rfl | hm
    · exact dumpStr_valid k (fun c hc => List.all_eq_true.mp hk c hc) x hm
    · omega
    · rcases hm with hm | hm
      · exact jvWf_dumps v hv x hm
      · cases rest with
        | nil => simp [dumpsMemberSep] at hm
        | cons q rest2 =>
          obtain ⟨k2, v2⟩ := q
          rw [dumpsMemberSep_cons] at hm
          simp only [List.mem_cons] at hm
          rcases hm with rfl | hm
          · omega
          · exact jvKvsWf_dumpsMembers ((k2, v2) :: rest2) hrest x hm

end

theorem b64DigitStd_validCp : ∀ i : Nat, i < 64 → validCp (b64DigitStd i) = true := by decide

theorem b64Encode_validCp (bs : PyBytes) (hb : ∀ b ∈ bs, b < 256) :
    (b64Encode bs).all validCp = true := by
  rw [List.all_eq_true]
  intro c hc
  rcases b64EncodeWith_mem b64DigitStd bs.length bs le_rfl hb c hc with ⟨i, hi, rfl⟩ | rfl
  · exact b64DigitStd_validCp i hi
  · decide

theorem jvListWf_mapS (xs : List PyStr) (h : ∀ s ∈ xs, s.all validCp = true) :
    jvListWf (xs.map Jv.s) = true := by
  induction xs with
  | nil => rfl
  | cons s rest ih =>
    simp only [List.map_cons, jvListWf, Bool.and_eq_true]
    exact ⟨by simpa [jvWf] using h s (by simp),
      ih (fun t ht => h t (by simp [ht]))⟩

theorem jvListWf_mapB64 (xs : List PyBytes) (h : ∀ b ∈ xs, ∀ x ∈ b, x < 256) :
    jvListWf (xs.map (fun b => Jv.s (b64Encode b))) = true := by
  induction xs with
  | nil => rfl
  | cons b rest ih =>
    simp only [List.map_cons, jvListWf, Bool.and_eq_true]
    refine ⟨by simpa [jvWf] using b64Encode_validCp b (h b (by simp)), ?_⟩
    exact ih (fun y hy x hx => h y (by simp [hy]) x hx)

mutual

/-- `_av_to_json` of a canonical value produces well-formed JSON. -/
theorem avToJson_wf : ∀ v : AttrVal, avCanonical v = true → jvWf (avToJson v) = true
  | .S s, hc => by
    simp only [avCanonical] at hc
    simp [avToJson, jvWf, jvKvsWf, validCp, hc]
  | .N n, hc => by
    simp only [avCanonical] at hc
    simp [avToJson, jvWf, jvKvsWf, validCp, hc]
  | .B b, hc => by
    simp only [avCanonical] at hc
    have : ∀ x ∈ b, x < 256 := by
      intro x hx
      simpa using List.all_eq_true.mp hc x hx
    simp [avToJson, jvWf, jvKvsWf, validCp, b64Encode_validCp b this]
  | .BOOL bv, _ => by simp [avToJson, jvWf, jvKvsWf, validCp]
  | .NULL, _ => by simp [avToJson, jvWf, jvKvsWf, validCp]
  | .SS xs, hc => by
    simp only [avCanonical] at hc
    have : ∀ s ∈ xs, s.all validCp = true := fun s hs => List.all_eq_true.mp hc s hs
    simp [avToJson, jvWf, jvKvsWf, validCp, jvListWf_mapS xs this]
  | .NS xs, hc => by
    simp only [avCanonical] at hc
    have : ∀ s ∈ xs, s.all validCp = true := fun s hs => List.all_eq_true.mp hc s hs
    simp [avToJson, jvWf, jvKvsWf, validCp, jvListWf_mapS xs this]
  | .BS xs, hc => by
    simp only [avCanonical] at hc
    have : ∀ b ∈ xs, ∀ x ∈ b, x < 256 := by
      intro b hb x hx
      simpa using List.all_eq_true.mp (List.all_eq_true.mp hc b hb) x hx
    simp [avToJson, jvWf, jvKvsWf, validCp, jvListWf_mapB64 xs this]
  | .L xs, hc => by
    simp only [avCanonical] at hc
    simp [avToJson, jvWf, jvKvsWf, validCp, avListToJson_wf xs hc]
  | .M kvs, hc => by
    simp only [avCanonical, Bool.and_eq_true] at hc
    have hid : sortKvs (avKvsToJson kvs) = avKvsToJson kvs :=
      sortKvs_of_sorted _ (by rw [keysSorted_avKvsToJson]; exact hc.1)
    simp [avToJson, jvWf, jvKvsWf, validCp, hid, avKvsToJson_wf kvs hc.2]

/-- Elementwise preservation. -/
theorem avListToJson_wf : ∀ xs : List AttrVal, avListCanonical xs = true →
    jvListWf (avListToJson xs) = true
  | [], _ => rfl
  | x :: xs, hc => by
    simp only [avListCanonical, Bool.and_eq_true] at hc
    simp only [avListToJson, jvListWf, Bool.and_eq_true]
    exact ⟨avToJson_wf x hc.1, avListToJson_wf xs hc.2⟩

/-- Entrywise preservation. -/
theorem avKvsToJson_wf : ∀ kvs : List (PyStr × AttrVal), avKvsCanonical kvs = true →
    jvKvsWf (avKvsToJson kvs) = true
  | [], _ => rfl
  | (k, v) :: rest, hc => by
    simp only [avKvsCanonical, Bool.and_eq_true] at hc
    simp only [avKvsToJson, jvKvsWf, Bool.and_eq_true]
    exact ⟨⟨hc.1.1, avToJson_wf v hc.1.2⟩, avKvsToJson_wf rest hc.2⟩

end

/-! ## Cursor protocol (`query.py`: `encode_cursor` / `decode_cursor`) -/

/-- Model of `",".join(parts)`. -/
def joinComma : List (List Nat) → List Nat
  | [] => []
  | [p] => p
  | p :: rest => p ++ 44 :: joinComma rest

/-- A decoded cursor: last evaluated key, optional index name, optional sort
direction, as in the `Cursor` dataclass. -/
structure CursorR : Type where
  lastKey : List (PyStr × AttrVal)
  index : Option PyStr
  sort : Option PyStr

/-- Model of `encode_cursor`: an empty last key encodes as the empty string;
otherwise the sorted key map is rendered attribute by attribute with
`_av_to_json`, wrapped with the optional `index` and `sort` fields into a
hand-concatenated compact JSON object, UTF-8 encoded, and padded URL-safe
base64 encoded (as `base64.urlsafe_b64encode` does). -/
def encodeCursor (lastKey : List (PyStr × AttrVal)) (index : Option PyStr)
    (sort : Option PyStr) : PyStr :=
  if lastKey.isEmpty then []
  else
    let lastKeyJson := avKvsToJson (sortKvs lastKey)
    let parts : List (List Nat) :=
      [cps "\"lastKey\":" ++ (Jv.obj lastKeyJson).dumps]
      ++ (match index with
          | some i => [cps "\"index\":" ++ (Jv.s i).dumps]
          | none => [])
      ++ (match sort with
          | some s => [cps "\"sort\":" ++ (Jv.s s).dumps]
          | none => [])
    b64UrlEncode (utf8Encode (123 :: joinComma parts ++ [125]))

/-- The whitespace set of `str.strip()` restricted to ASCII, which is all a
base64 token can contain. -/
def isPySpace (c : Nat) : Bool :=
  decide (c = 32) || decide (c = 9) || decide (c = 10) || decide (c = 13) ||
    decide (c = 11) || decide (c = 12)

/-- Model of `str.strip()`. -/
def pyStrip (s : PyStr) : PyStr :=
  ((s.dropWhile isPySpace).reverse.dropWhile isPySpace).reverse

/-- Model of `dict.get` on an object built by `json.loads`, where a duplicate
key keeps its last occurrence. -/
def jGet (kvs : List (PyStr × Jv)) (k : PyStr) : Option Jv :=
  (kvs.reverse.find? (fun p => decide (p.1 = k))).map (fun p => p.2)

/-- Processing of a stripped cursor: restore padding, URL-safe base64
decode, UTF-8 decode, parse JSON, require an object with an object-valued
`lastKey` whose entries all unmarshal, keep `index` only when it is a
string and `sort` only when it is exactly `"ASC"`/`"DESC"`. -/
def decodeCursorRaw (raw : PyStr) : Except String CursorR :=
  if raw = [] then .error "cursor is empty"
  else
    match b64UrlDecode (raw ++ List.replicate ((4 - raw.length % 4) % 4) 61) with
    | none => .error "invalid base64"
    | some bytes =>
      match utf8Decode bytes with
      | none => .error "invalid utf-8"
      | some data =>
        match jsonLoads data with
        | none => .error "invalid json"
        | some (Jv.obj kvs) =>
          match jGet kvs (cps "lastKey") with
          | some (Jv.obj lkRaw) =>
            match avKvsFromJson lkRaw with
            | some lk =>
              .ok
                { lastKey := sortKvs lk
                  index :=
                    match jGet kvs (cps "index") with
                    | some (Jv.s i) => some i
                    | _ => none
                  sort :=
                    match jGet kvs (cps "sort") with
                    | some (Jv.s s) =>
                      if s = cps "ASC" ∨ s = cps "DESC" then some s else none
                    | _ => none }
            | none => .error "invalid attribute value"
          | _ => .error "cursor lastKey is invalid"
        | some _ => .error "cursor must decode to an object"

/-- Model of `decode_cursor`: strip the token, then process it. -/
def decodeCursor (cursor : PyStr) : Except String CursorR :=
  decodeCursorRaw (pyStrip cursor)

/-- The optional `index` member of a cursor object. -/
def cursorIdxKvs : Option PyStr → List (PyStr × Jv)
  | some i => [(cps "index", Jv.s i)]
  | none => []

/-- The optional `sort` member of a cursor object. -/
def cursorSrtKvs : Option PyStr → List (PyStr × Jv)
  | some s => [(cps "sort", Jv.s s)]
  | none => []

/-- The JSON object a cursor token carries, with its fields in emission
order: `lastKey`, then `index` when present, then `sort` when present. -/
def cursorTopJv (lastKey : List (PyStr × AttrVal)) (index : Option PyStr)
    (sort : Option PyStr) : Jv :=
  Jv.obj ([(cps "lastKey", Jv.obj (avKvsToJson (sortKvs lastKey)))]
    ++ cursorIdxKvs index ++ cursorSrtKvs sort)

/-- The hand-concatenated payload of `encode_cursor` is exactly the compact
serialization of the cursor object. -/
theorem encodeCursor_payload (lastKey : List (PyStr × AttrVal)) (index : Option PyStr)
    (sort : Option PyStr) (hne : ¬ lastKey = []) :
    encodeCursor lastKey index sort
      = b64UrlEncode (utf8Encode (cursorTopJv lastKey index sort).dumps) := by
  have hlk : cps "\"lastKey\":" = dumpStr (cps "lastKey") ++ [58] := by decide
  have hix : cps "\"index\":" = dumpStr (cps "index") ++ [58] := by decide
  have hsr : cps "\"sort\":" = dumpStr (cps "sort") ++ [58] := by decide
  have hne2 : lastKey.isEmpty = false := by
    cases lastKey with
    | nil => exact absurd rfl hne
    | cons p rest => rfl
  cases index with
  | none =>
    cases sort with
    | none =>
      simp only [encodeCursor, hne2, Bool.false_eq_true, if_false, cursorTopJv]
      rw [hlk]
      simp [joinComma, Jv.dumps, dumpsMembers, dumpsMemberSep, cursorIdxKvs, cursorSrtKvs]
    | some s =>
      simp only [encodeCursor, hne2, Bool.false_eq_true, if_false, cursorTopJv]
      rw [hlk, hsr]
      simp [joinComma, Jv.dumps, dumpsMembers, dumpsMemberSep, cursorIdxKvs, cursorSrtKvs]
  | some i =>
    cases sort with
    | none =>
      simp only [encodeCursor, hne2, Bool.false_eq_true, if_false, cursorTopJv]
      rw [hlk, hix]
      simp [joinComma, Jv.dumps, dumpsMembers, dumpsMemberSep, cursorIdxKvs, cursorSrtKvs]
    | some s =>
      simp only [encodeCursor, hne2, Bool.false_eq_true, if_false, cursorTopJv]
      rw [hlk, hix, hsr]
      simp [joinComma, Jv.dumps, dumpsMembers, dumpsMemberSep, cursorIdxKvs, cursorSrtKvs]

theorem b64EncodeWith_len_mod4 (digit : Nat → Nat) :
    ∀ n (bs : PyBytes), bs.length ≤ n → (b64EncodeWith digit bs).length % 4 = 0 := by
  intro n
  induction n with
  | zero =>
    intro bs hlen
    have : bs = [] := List.eq_nil_of_length_eq_zero (Nat.le_zero.mp hlen)
    subst this
    rfl
  | succ n ih =>
    intro bs hlen
    match bs with
    | [] => rfl
    | [a] => simp [b64EncodeWith]
    | [a, b] => simp [b64EncodeWith]
    | a :: b :: c :: rest =>
      have := ih rest (by simp only [List.length_cons] at hlen; omega)
      simp only [b64EncodeWith, List.length_cons]
      omega

theorem b64EncodeWith_ne_nil (digit : Nat → Nat) (bs : PyBytes) (h : bs ≠ []) :
    b64EncodeWith digit bs ≠ [] := by
  match bs with
  | [] => exact absurd rfl h
  | [a] => simp [b64EncodeWith]
  | [a, b] => simp [b64EncodeWith]
  | a :: b :: c :: rest => simp [b64EncodeWith]

theorem dropWhile_all_false {p : Nat → Bool} :
    ∀ l : List Nat, (∀ c ∈ l, p c = false) → l.dropWhile p = l := by
  intro l h
  cases l with
  | nil => rfl
  | cons c rest =>
    have : p c = false := h c (by simp)
    simp [List.dropWhile_cons, this]

theorem pyStrip_id (s : PyStr) (h : ∀ c ∈ s, isPySpace c = false) : pyStrip s = s := by
  unfold pyStrip
  rw [dropWhile_all_false s h,
    dropWhile_all_false s.reverse (fun c hc => h c (List.mem_reverse.mp hc)),
    List.reverse_reverse]

theorem b64UrlEncode_no_space (bs : PyBytes) (hb : ∀ b ∈ bs, b < 256) :
    ∀ c ∈ b64UrlEncode bs, isPySpace c = false := by
  intro c hc
  rcases b64EncodeWith_mem b64DigitUrl bs.length bs le_rfl hb c hc with ⟨i, hi, rfl⟩ | rfl
  · have hall : ∀ i : Nat, i < 64 → isPySpace (b64DigitUrl i) = false := by decide
    exact hall i hi
  · decide

theorem utf8Encode_cons_ne_nil (c : Nat) (rest : PyStr) : utf8Encode (c :: rest) ≠ [] := by
  intro h
  have : utf8Encode (c :: rest) = utf8EncodeCp c ++ utf8Encode rest := by simp [utf8Encode]
  rw [this] at h
  exact utf8EncodeCp_ne_nil c (List.append_eq_nil.mp h).1

theorem jvKvsWf_append (xs ys : List (PyStr × Jv)) :
    jvKvsWf (xs ++ ys) = (jvKvsWf xs && jvKvsWf ys) := by
  induction xs with
  | nil => simp [jvKvsWf]
  | cons p rest ih =>
    obtain ⟨k, v⟩ := p
    simp [jvKvsWf, ih, Bool.and_assoc]

theorem jGet_cursor_lastKey (k : List (PyStr × AttrVal)) (idx srt : Option PyStr) :
    jGet ([(cps "lastKey", Jv.obj (avKvsToJson (sortKvs k)))]
      ++ cursorIdxKvs idx ++ cursorSrtKvs srt)
      (cps "lastKey") = some (Jv.obj (avKvsToJson (sortKvs k))) := by
  cases idx <;> cases srt <;>
    simp +decide [jGet, List.find?, cursorIdxKvs, cursorSrtKvs]

theorem jGet_cursor_index (k : List (PyStr × AttrVal)) (idx srt : Option PyStr) :
    jGet ([(cps "lastKey", Jv.obj (avKvsToJson (sortKvs k)))]
      ++ cursorIdxKvs idx ++ cursorSrtKvs srt)
      (cps "index") = idx.map Jv.s := by
  cases idx <;> cases srt <;>
    simp +decide [jGet, List.find?, cursorIdxKvs, cursorSrtKvs]

theorem jGet_cursor_sort (k : List (PyStr × AttrVal)) (idx srt : Option PyStr) :
    jGet ([(cps "lastKey", Jv.obj (avKvsToJson (sortKvs k)))]
      ++ cursorIdxKvs idx ++ cursorSrtKvs srt)
      (cps "sort") = srt.map Jv.s := by
  cases idx <;> cases srt <;>
    simp +decide [jGet, List.find?, cursorIdxKvs, cursorSrtKvs]

theorem cursorIdxWf (idx : Option PyStr)
    (hidx : ∀ i, idx = some i → i.all validCp = true) :
    jvKvsWf (cursorIdxKvs idx) = true := by
  cases idx with
  | none => rfl
  | some i =>
    have hi := hidx i rfl
    simp +decide [cursorIdxKvs, jvKvsWf, jvWf, hi]

/-- Decoding inverts encoding for every canonical non-empty last key, any
valid index name and a sort direction of `"ASC"`/`"DESC"` or absent. -/
theorem decodeCursor_encodeCursor
    (k : List (PyStr × AttrVal)) (idx srt : Option PyStr)
    (hk : keysSorted k = true) (hkc : avKvsCanonical k = true) (hne : k ≠ [])
    (hidx : ∀ i, idx = some i → i.all validCp = true)
    (hsrt : srt = none ∨ srt = some (cps "ASC") ∨ srt = some (cps "DESC")) :
    decodeCursor (encodeCursor k idx srt) = .ok ⟨k, idx, srt⟩ := by
  have hid : sortKvs k = k := sortKvs_of_sorted k hk
  have hwfA := cursorIdxWf idx hidx
  have hwfB : jvKvsWf (cursorSrtKvs srt) = true := by
    rcases hsrt with h | h | h <;> subst h
    · rfl
    · decide
    · decide
  have hwfL : jvKvsWf [(cps "lastKey", Jv.obj (avKvsToJson (sortKvs k)))] = true := by
    rw [hid]
    simp +decide [jvKvsWf, jvWf, avKvsToJson_wf k hkc]
  have hwf : jvWf (cursorTopJv k idx srt) = true := by
    simp only [cursorTopJv, jvWf, jvKvsWf_append, Bool.and_eq_true]
    exact ⟨⟨hwfL, hwfA⟩, hwfB⟩
  have hvalid : ∀ c ∈ (cursorTopJv k idx srt).dumps, c < 0x110000 :=
    jvWf_dumps _ hwf
  have hbytes : ∀ b ∈ utf8Encode (cursorTopJv k idx srt).dumps, b < 256 :=
    utf8Encode_lt_256 _ hvalid
  rw [encodeCursor_payload k idx srt hne]
  have hstrip : pyStrip (b64UrlEncode (utf8Encode (cursorTopJv k idx srt).dumps))
      = b64UrlEncode (utf8Encode (cursorTopJv k idx srt).dumps) :=
    pyStrip_id _ (b64UrlEncode_no_space _ hbytes)
  have hDcons : (cursorTopJv k idx srt).dumps
      = 123 :: (dumpsMembers ([(cps "lastKey", Jv.obj (avKvsToJson (sortKvs k)))]
        ++ cursorIdxKvs idx ++ cursorSrtKvs srt) ++ [125]) := by
    simp [cursorTopJv, Jv.dumps]
  have hTne : b64UrlEncode (utf8Encode (cursorTopJv k idx srt).dumps) ≠ [] := by
    refine b64EncodeWith_ne_nil _ _ ?_
    rw [hDcons]
    exact utf8Encode_cons_ne_nil _ _
  have hmod : (b64UrlEncode (utf8Encode (cursorTopJv k idx srt).dumps)).length % 4 = 0 :=
    b64EncodeWith_len_mod4 _ _ _ le_rfl
  have hb64 : b64UrlDecode (b64UrlEncode (utf8Encode (cursorTopJv k idx srt).dumps))
      = some (utf8Encode (cursorTopJv k idx srt).dumps) :=
    b64UrlDecode_encode _ hbytes
  have hutf : utf8Decode (utf8Encode (cursorTopJv k idx srt).dumps)
      = some (cursorTopJv k idx srt).dumps :=
    utf8Decode_encode _ hvalid
  have hloads := jsonLoads_dumps (cursorTopJv k idx srt)
  unfold decodeCursor
  rw [hstrip]
  rw [decodeCursorRaw.eq_def]
  rw [if_neg hTne, hmod]
  simp only [Nat.sub_zero, Nat.mod_self, List.replicate_zero, List.append_nil]
  simp only [hb64]
  simp only [hutf]
  simp only [hloads]
  simp only [cursorTopJv]
  simp only [jGet_cursor_lastKey k idx srt, jGet_cursor_index k idx srt,
    jGet_cursor_sort k idx srt]
  simp only [hid, avKvsRt k hkc]
  rcases hsrt with h | h | h <;> subst h <;> cases idx <;> simp +decide [hid]

/-- C1: cursor round trip.  For every representable (canonical, valid) and
non-empty last-evaluated key, every valid index name or none, and a sort
direction among `"ASC"`/`"DESC"` or none, `decode_cursor` inverts
`encode_cursor` exactly; and encoding an empty last key yields the empty
string. -/
theorem C1_cursor_round_trip
    (k : List (PyStr × AttrVal)) (idx srt : Option PyStr)
    (hk : keysSorted k = true) (hkc : avKvsCanonical k = true) (hne : k ≠ [])
    (hidx : ∀ i, idx = some i → i.all validCp = true)
    (hsrt : srt = none ∨ srt = some (cps "ASC") ∨ srt = some (cps "DESC")) :
    decodeCursor (encodeCursor k idx srt) = .ok ⟨k, idx, srt⟩
      ∧ ∀ idx2 srt2 : Option PyStr, encodeCursor [] idx2 srt2 = [] :=
  ⟨decodeCursor_encodeCursor k idx srt hk hkc hne hidx hsrt, fun _ _ => rfl⟩

/-- Witness: the round trip at the concrete key `{pk: {S: "A"}}` with index
`"gsi"` and sort `"ASC"`. -/
theorem C1_cursor_round_trip_witness :
    decodeCursor (encodeCursor [(cps "pk", AttrVal.S (cps "A"))] (some (cps "gsi"))
        (some (cps "ASC")))
      = .ok ⟨[(cps "pk", AttrVal.S (cps "A"))], some (cps "gsi"), some (cps "ASC")⟩
      ∧ ∀ idx2 srt2 : Option PyStr, encodeCursor [] idx2 srt2 = [] :=
  C1_cursor_round_trip [(cps "pk", AttrVal.S (cps "A"))] (some (cps "gsi"))
    (some (cps "ASC")) (by decide) (by decide) (by exact List.cons_ne_nil _ _)
    (by intro i h; cases h; decide) (Or.inr (Or.inl rfl))

/-- Modelled from the spec's words for the token format: the base64url
encoding, with the padding characters removed, of the compact-JSON cursor
object — the format C7 claims. -/
def specCursorTokenUnpadded (k : List (PyStr × AttrVal)) (idx srt : Option PyStr) : PyStr :=
  (b64UrlEncode (utf8Encode (cursorTopJv k idx srt).dumps)).takeWhile
    (fun c => decide (c ≠ 61))

/-- C7 as stated is false: the encoder keeps the `=` padding that
`base64.urlsafe_b64encode` emits, so the token of `{pk: {S: "A"}}` is not
the unpadded base64url form the claim describes. -/
theorem C7_counterexample :
    encodeCursor [(cps "pk", AttrVal.S (cps "A"))] none none
      ≠ specCursorTokenUnpadded [(cps "pk", AttrVal.S (cps "A"))] none none := by decide

/-- C7 (amended): for every canonical non-empty last key the token is the
padded base64url encoding of the UTF-8 bytes of the compact JSON object
`{"lastKey": ..., "index"?: ..., "sort"?: ...}`, and an empty last key
encodes as the empty string. -/
theorem C7_cursor_token_format
    (k : List (PyStr × AttrVal)) (idx srt : Option PyStr) (hne : k ≠ []) :
    encodeCursor k idx srt = b64UrlEncode (utf8Encode (cursorTopJv k idx srt).dumps)
      ∧ ∀ idx2 srt2 : Option PyStr, encodeCursor [] idx2 srt2 = [] :=
  ⟨encodeCursor_payload k idx srt hne, fun _ _ => rfl⟩

/-- Witness: the token format at the concrete key `{pk: {S: "A"}}`. -/
theorem C7_cursor_token_format_witness :
    encodeCursor [(cps "pk", AttrVal.S (cps "A"))] none none
        = b64UrlEncode (utf8Encode
            (cursorTopJv [(cps "pk", AttrVal.S (cps "A"))] none none).dumps)
      ∧ ∀ idx2 srt2 : Option PyStr, encodeCursor [] idx2 srt2 = [] :=
  C7_cursor_token_format [(cps "pk", AttrVal.S (cps "A"))] none none
    (by exact List.cons_ne_nil _ _)

/-! ## Model registry and table serialization (`model.py`, `table.py`)

Domain values passed to the table are modelled by `PyVal`, a Python-style
value union.  The boto3 `TypeSerializer` and the per-attribute converter /
encryption pipeline of `_serialize_attr_value` are external to the checked
properties and enter as an injected serializer function, exactly as the
client objects are injected for tests. -/

/-- Python domain values handed to the data-access layer. -/
inductive PyVal : Type
  | none
  | bool (b : Bool)
  | int (n : Int)
  | str (s : String)
  | bytes (b : PyBytes)
  | list (xs : List PyVal)
  | dict (kvs : List (String × PyVal))
  | set (xs : List PyVal)
  | tuple (xs : List PyVal)

/-- Model of `_is_empty` (table.py): `None`, `False`, a value equal to `0`,
an empty string or bytes, or an empty list/dict/set/tuple. -/
def isEmptyPy : PyVal → Bool
  | .none => true
  | .bool b => !b
  | .int n => n == 0
  | .str s => s.isEmpty
  | .bytes b => b.isEmpty
  | .list xs => xs.isEmpty
  | .dict kvs => kvs.isEmpty
  | .set xs => xs.isEmpty
  | .tuple xs => xs.isEmpty

/-- Attribute metadata resolved by the model registry (`AttributeDefinition`
in model.py; the optional converter stays inside the injected serializer). -/
structure AttributeDefinition : Type where
  python_name : String
  attribute_name : String
  roles : List String
  omitempty : Bool
  set : Bool
  json : Bool
  binary : Bool
  encrypted : Bool
  deriving DecidableEq

/-- The resolved model: one pk, at most one sk, the attribute map in
declaration order (`ModelDefinition` in model.py). -/
structure ModelDefinition : Type where
  pk : AttributeDefinition
  sk : Option AttributeDefinition
  attributes : List (String × AttributeDefinition)

/-- The library's error taxonomy (errors.py), with payloads where the typed
errors carry them. -/
inductive TableErr : Type
  | validation (msg : String)
  | notFound (msg : String)
  | conditionFailed (msg : String)
  | batchRetryExceeded (operation : String) (unprocessedCount : Nat)
  | transactionCanceled (message : String) (reasonCodes : List String)
  | awsError (code : String) (message : String)
  | encryptionNotConfigured (msg : String)
  | leaseHeld (msg : String)
  | leaseNotOwned (msg : String)
  | valueError (msg : String)
  deriving DecidableEq

/-- An injected serializer standing for `_serialize_attr_value` (converter,
empty-set policy, JSON flag, boto3 `TypeSerializer`, optional encryption). -/
abbrev AttrSerializer := AttributeDefinition → PyVal → AttrVal

/-- Model of `Table._to_item`: iterate the declared attributes in order,
skip an attribute flagged omit-if-empty whose value `_is_empty` judges
empty, serialize the rest, then require the key attributes to be present. -/
def toItem (m : ModelDefinition) (ser : AttrSerializer) (item : String → PyVal) :
    Except TableErr (List (String × AttrVal)) :=
  let out := m.attributes.filterMap (fun p =>
    if p.2.omitempty && isEmptyPy (item p.1) then Option.none
    else some (p.2.attribute_name, ser p.2 (item p.1)))
  if ¬ out.any (fun q => q.1 = m.pk.attribute_name) then
    .error (.validation "missing pk")
  else
    match m.sk with
    | some skAd =>
      if ¬ out.any (fun q => q.1 = skAd.attribute_name) then
        .error (.validation "missing sk")
      else .ok out
    | none => .ok out

/-- Model of `Table._to_key`. -/
def toKey (m : ModelDefinition) (ser : AttrSerializer) (pk : PyVal) (sk : Option PyVal) :
    Except TableErr (List (String × AttrVal)) :=
  match pk with
  | .none => .error (.validation "pk is required")
  | _ =>
    match m.sk, sk with
    | Option.none, some _ => .error (.validation "model does not define sk")
    | some _, Option.none => .error (.validation "sk is required")
    | Option.none, Option.none => .ok [(m.pk.attribute_name, ser m.pk pk)]
    | some skAd, some skv =>
      .ok [(m.pk.attribute_name, ser m.pk pk), (skAd.attribute_name, ser skAd skv)]

/-- True when the field is the model's pk or sk python name. -/
def isKeyField (m : ModelDefinition) (f : String) : Bool :=
  f = m.pk.python_name ||
    (match m.sk with
     | some skAd => f = skAd.python_name
     | none => false)

/-- Python `value is None`. -/
def isNonePy : PyVal → Bool
  | .none => true
  | _ => false

/-- One pass of the `_build_update_request` loop: per field either a REMOVE
(value `None`) or a SET assignment, with `#d_`/`:d_` placeholders; unknown
or key fields fail. -/
def buildUpdateParts (m : ModelDefinition) (ser : AttrSerializer) :
    List (String × PyVal) →
      Except TableErr (List (String × String) × List (String × AttrVal)
        × List String × List String)
  | [] => .ok ([], [], [], [])
  | (f, v) :: rest =>
    match m.attributes.lookup f with
    | none => .error (.validation ("unknown field: " ++ f))
    | some ad =>
      if isKeyField m f then .error (.validation ("cannot update key field: " ++ f))
      else
        match buildUpdateParts m ser rest with
        | .error e => .error e
        | .ok (names, values, setParts, removeParts) =>
          if isNonePy v then
            .ok (("#d_" ++ f, ad.attribute_name) :: names, values, setParts,
              ("#d_" ++ f) :: removeParts)
          else
            .ok (("#d_" ++ f, ad.attribute_name) :: names,
              (":d_" ++ f, ser ad v) :: values,
              ("#d_" ++ f ++ " = " ++ (":d_" ++ f)) :: setParts, removeParts)

/-- A compiled UpdateItem request. -/
structure UpdateRequest : Type where
  key : List (String × AttrVal)
  updateExpression : String
  names : List (String × String)
  values : List (String × AttrVal)
  returnValues : Option String
  conditionExpression : Option String

/-- Append extra names/values, failing on a placeholder collision. -/
def mergeNoCollision {α : Type} (base extra : List (String × α)) (kind : String) :
    Except TableErr (List (String × α)) :=
  match extra with
  | [] => .ok base
  | (k, v) :: rest =>
    if base.any (fun p => p.1 = k) then
      .error (.validation ("expression attribute " ++ kind ++ " collision: " ++ k))
    else mergeNoCollision (base ++ [(k, v)]) rest kind

/-- Model of `Table._build_update_request`: compile the key, the
REMOVE-on-`None` / SET-otherwise parts in iteration order, join the two
clauses in SET-then-REMOVE order, reject an empty expression, then merge
caller names and values with collision detection. -/
def buildUpdateRequest (m : ModelDefinition) (ser : AttrSerializer) (pk : PyVal)
    (sk : Option PyVal) (updates : List (String × PyVal))
    (conditionExpression : Option String) (extraNames : List (String × String))
    (extraValues : List (String × AttrVal)) (returnValues : Option String) :
    Except TableErr UpdateRequest :=
  match toKey m ser pk sk with
  | .error e => .error e
  | .ok key =>
    match buildUpdateParts m ser updates with
    | .error e => .error e
    | .ok (names, values, setParts, removeParts) =>
      let exprParts : List String :=
        (if setParts.isEmpty then [] else ["SET " ++ String.intercalate ", " setParts])
        ++ (if removeParts.isEmpty then []
            else ["REMOVE " ++ String.intercalate ", " removeParts])
      if exprParts.isEmpty then .error (.validation "no updates provided")
      else
        match mergeNoCollision names extraNames "name" with
        | .error e => .error e
        | .ok mergedNames =>
          match mergeNoCollision values extraValues "value" with
          | .error e => .error e
          | .ok mergedValues =>
            .ok
              { key := key
                updateExpression := String.intercalate " " exprParts
                names := mergedNames
                values := mergedValues
                returnValues := returnValues
                conditionExpression := conditionExpression }

/-- The UpdateItem response surface the result handling inspects:
`resp.get("Attributes")`, empty when missing. -/
structure UpdateResponse : Type where
  attributes : List (String × AttrVal)

/-- Model of `Table.update`: compile with `ReturnValues=ALL_NEW`, send, then
return the deserialized new state when attributes came back and raise the
structured validation error otherwise.  `fromItem` stands for
`Table._from_item`. -/
def tableUpdate {α : Type} (m : ModelDefinition) (ser : AttrSerializer)
    (fromItem : List (String × AttrVal) → α) (client : UpdateRequest → UpdateResponse)
    (pk : PyVal) (sk : Option PyVal) (updates : List (String × PyVal))
    (conditionExpression : Option String) (extraNames : List (String × String))
    (extraValues : List (String × AttrVal)) : Except TableErr α :=
  match buildUpdateRequest m ser pk sk updates conditionExpression extraNames
      extraValues (some "ALL_NEW") with
  | .error e => .error e
  | .ok req =>
    let resp := client req
    if resp.attributes.isEmpty then .error (.validation "update did not return Attributes")
    else .ok (fromItem resp.attributes)

/-! ## Update builder (`update_builder.py`) -/

/-- The accumulated operations of the builder chain, in call order. -/
inductive UpdateOp : Type
  | setOp (field : String) (value : PyVal)
  | setIfNotExists (field : String) (default_ : PyVal)
  | add (field : String) (value : PyVal)
  | remove (field : String)
  | delete (field : String) (value : PyVal)
  | appendList (field : String) (values : List PyVal)
  | prependList (field : String) (values : List PyVal)
  | removeListAt (field : String) (index : Int)
  | setListElement (field : String) (index : Int) (value : PyVal)

/-- A condition accumulated by `condition`/`or_condition`:
logic (`AND`/`OR`), field, operator, optional value (`PyVal.none` stands
for Python's `None` default). -/
structure BuilderCond : Type where
  logic : String
  field : String
  operator : String
  value : PyVal

/-- Model of `normalize_set`. -/
def normalizeSet : PyVal → PyVal
  | .set xs => .set xs
  | .list xs => .set xs
  | .tuple xs => .set xs
  | v => .set [v]

/-- Python `isinstance(value, (int, float, Decimal))`; `bool` is an `int`
subclass. -/
def isNumericPy : PyVal → Bool
  | .int _ => true
  | .bool _ => true
  | _ => false

/-- `dict.setdefault` on an insertion-ordered association list. -/
def setdefault (names : List (String × String)) (k v : String) :
    List (String × String) :=
  if names.any (fun p => p.1 = k) then names else names ++ [(k, v)]

/-- The mutable compilation state of `_build_request`: the shared name map,
the update value map with its counter, and the four clause part lists. -/
structure BuilderState : Type where
  names : List (String × String)
  updateValues : List (String × AttrVal)
  updateCounter : Nat
  setParts : List String
  removeParts : List String
  addParts : List String
  deleteParts : List String

/-- `update_name_ref`: unknown and key fields fail; the `#u_` placeholder is
registered for the attribute's wire name. -/
def updateNameRef (m : ModelDefinition) (st : BuilderState) (f : String) :
    Except TableErr (String × AttributeDefinition × BuilderState) :=
  match m.attributes.lookup f with
  | none => .error (.validation ("unknown field: " ++ f))
  | some ad =>
    if isKeyField m f then .error (.validation ("cannot update key field: " ++ f))
    else
      .ok ("#u_" ++ f, ad,
        { st with names := setdefault st.names ("#u_" ++ f) ad.attribute_name })

/-- `update_value_ref` / `raw_value_ref`: allocate the next `:u{n}`. -/
def updateValueRef (st : BuilderState) (av : AttrVal) : String × BuilderState :=
  let n := st.updateCounter + 1
  (":u" ++ toString n,
    { st with
      updateCounter := n
      updateValues := st.updateValues ++ [(":u" ++ toString n, av)] })

/-- One step of the `_build_request` update loop. -/
def applyUpdateOp (m : ModelDefinition) (ser : AttrSerializer) (serRaw : PyVal → AttrVal)
    (st : BuilderState) : UpdateOp → Except TableErr BuilderState
  | .setOp f v =>
    match updateNameRef m st f with
    | .error e => .error e
    | .ok (ref, ad, st1) =>
      let (vref, st2) := updateValueRef st1 (ser ad v)
      .ok { st2 with setParts := st2.setParts ++ [ref ++ " = " ++ vref] }
  | .setIfNotExists f dv =>
    match updateNameRef m st f with
    | .error e => .error e
    | .ok (ref, ad, st1) =>
      let (vref, st2) := updateValueRef st1 (ser ad dv)
      .ok { st2 with
        setParts := st2.setParts ++ [ref ++ " = if_not_exists(" ++ ref ++ ", " ++ vref ++ ")"] }
  | .add f v =>
    match updateNameRef m st f with
    | .error e => .error e
    | .ok (ref, ad, st1) =>
      if ad.encrypted then
        .error (.validation ("encrypted fields cannot be used in ADD: " ++ f))
      else if ad.set then
        let (vref, st2) := updateValueRef st1 (ser ad (normalizeSet v))
        .ok { st2 with addParts := st2.addParts ++ [ref ++ " " ++ vref] }
      else if ¬ isNumericPy v then
        .error (.validation "ADD requires a numeric value for non-set fields")
      else
        let (vref, st2) := updateValueRef st1 (serRaw v)
        .ok { st2 with addParts := st2.addParts ++ [ref ++ " " ++ vref] }
  | .remove f =>
    match updateNameRef m st f with
    | .error e => .error e
    | .ok (ref, _, st1) =>
      .ok { st1 with removeParts := st1.removeParts ++ [ref] }
  | .delete f v =>
    match updateNameRef m st f with
    | .error e => .error e
    | .ok (ref, ad, st1) =>
      if ad.encrypted then
        .error (.validation ("encrypted fields cannot be used in DELETE: " ++ f))
      else if ¬ ad.set then .error (.validation "DELETE requires a set field")
      else
        let (vref, st2) := updateValueRef st1 (ser ad (normalizeSet v))
        .ok { st2 with deleteParts := st2.deleteParts ++ [ref ++ " " ++ vref] }
  | .appendList f vs =>
    match updateNameRef m st f with
    | .error e => .error e
    | .ok (ref, ad, st1) =>
      if ad.encrypted then
        .error (.validation ("encrypted fields cannot be used in list operations: " ++ f))
      else if ad.set || ad.json || ad.binary then
        .error (.validation "list operations require a plain list attribute")
      else
        let (vref, st2) := updateValueRef st1 (serRaw (.list vs))
        .ok { st2 with
          setParts := st2.setParts ++ [ref ++ " = list_append(" ++ ref ++ ", " ++ vref ++ ")"] }
  | .prependList f vs =>
    match updateNameRef m st f with
    | .error e => .error e
    | .ok (ref, ad, st1) =>
      if ad.encrypted then
        .error (.validation ("encrypted fields cannot be used in list operations: " ++ f))
      else if ad.set || ad.json || ad.binary then
        .error (.validation "list operations require a plain list attribute")
      else
        let (vref, st2) := updateValueRef st1 (serRaw (.list vs))
        .ok { st2 with
          setParts := st2.setParts ++ [ref ++ " = list_append(" ++ vref ++ ", " ++ ref ++ ")"] }
  | .removeListAt f i =>
    match updateNameRef m st f with
    | .error e => .error e
    | .ok (ref, ad, st1) =>
      if ad.encrypted then
        .error (.validation ("encrypted fields cannot be used in list operations: " ++ f))
      else if ad.set || ad.json || ad.binary then
        .error (.validation "list operations require a plain list attribute")
      else if i < 0 then .error (.validation "list index must be a non-negative integer")
      else
        .ok { st1 with removeParts := st1.removeParts ++ [ref ++ "[" ++ toString i ++ "]"] }
  | .setListElement f i v =>
    match updateNameRef m st f with
    | .error e => .error e
    | .ok (ref, ad, st1) =>
      if ad.encrypted then
        .error (.validation ("encrypted fields cannot be used in list operations: " ++ f))
      else if ad.set || ad.json || ad.binary then
        .error (.validation "list operations require a plain list attribute")
      else if i < 0 then .error (.validation "list index must be a non-negative integer")
      else
        let (vref, st2) := updateValueRef st1 (serRaw v)
        .ok { st2 with
          setParts := st2.setParts ++ [ref ++ "[" ++ toString i ++ "] = " ++ vref] }

/-- The update loop over all accumulated operations, in call order. -/
def applyUpdateOps (m : ModelDefinition) (ser : AttrSerializer)
    (serRaw : PyVal → AttrVal) : BuilderState → List UpdateOp →
      Except TableErr BuilderState
  | st, [] => .ok st
  | st, op :: rest =>
    match applyUpdateOp m ser serRaw st op with
    | .error e => .error e
    | .ok st1 => applyUpdateOps m ser serRaw st1 rest

/-- The mutable state of condition compilation: the shared name map, the
`:c{n}` value map and counter, the built terms and the joining logics. -/
structure CondState : Type where
  names : List (String × String)
  condValues : List (String × AttrVal)
  condCounter : Nat
  parts : List String
  logics : List String

/-- `condition_value_ref`: allocate the next `:c{n}`. -/
def condValueRef (st : CondState) (av : AttrVal) : String × CondState :=
  let n := st.condCounter + 1
  (":c" ++ toString n,
    { st with
      condCounter := n
      condValues := st.condValues ++ [(":c" ++ toString n, av)] })

/-- `condition_name_ref`: unknown fields fail, encrypted fields are barred
from conditions, and the `#c_` placeholder is registered. -/
def conditionNameRef (m : ModelDefinition) (st : CondState) (f : String) :
    Except TableErr (String × AttributeDefinition × CondState) :=
  match m.attributes.lookup f with
  | none => .error (.validation ("unknown field: " ++ f))
  | some ad =>
    if ad.encrypted then
      .error (.validation ("encrypted fields cannot be used in conditions: " ++ f))
    else .ok ("#c_" ++ f, ad, { st with names := setdefault st.names ("#c_" ++ f) ad.attribute_name })

/-- ASCII whitespace for `str.strip()` on operator strings. -/
def isWsChar (c : Char) : Bool :=
  c = ' ' || c = '\t' || c = '\n' || c = '\r' || c = '\x0b' || c = '\x0c'

/-- Model of `str(operator).strip().upper()` on ASCII operator strings. -/
def pyStripUpper (s : String) : String :=
  ⟨(((s.data.dropWhile isWsChar).reverse.dropWhile isWsChar).reverse).map Char.toUpper⟩

/-- Model of `_build_condition_term`: normalize the operator, check the
value shape, and emit the placeholder-based term. -/
def buildConditionTerm (ser : AttrSerializer) (nameRef : String)
    (ad : AttributeDefinition) (operator : String) (value : PyVal) (st : CondState) :
    Except TableErr (String × CondState) :=
  let op := pyStripUpper operator
  if op = "ATTRIBUTE_EXISTS" ∨ op = "EXISTS" then
    match value with
    | .none => .ok ("attribute_exists(" ++ nameRef ++ ")", st)
    | _ => .error (.validation "EXISTS does not take a value")
  else if op = "ATTRIBUTE_NOT_EXISTS" ∨ op = "NOT_EXISTS" then
    match value with
    | .none => .ok ("attribute_not_exists(" ++ nameRef ++ ")", st)
    | _ => .error (.validation "NOT_EXISTS does not take a value")
  else if op = "=" ∨ op = "EQ" then
    match value with
    | .none => .error (.validation (operator ++ " requires one value"))
    | v => let (r, st1) := condValueRef st (ser ad v); .ok (nameRef ++ " = " ++ r, st1)
  else if op = "!=" ∨ op = "<>" ∨ op = "NE" then
    match value with
    | .none => .error (.validation (operator ++ " requires one value"))
    | v => let (r, st1) := condValueRef st (ser ad v); .ok (nameRef ++ " <> " ++ r, st1)
  else if op = "<" ∨ op = "LT" then
    match value with
    | .none => .error (.validation (operator ++ " requires one value"))
    | v => let (r, st1) := condValueRef st (ser ad v); .ok (nameRef ++ " < " ++ r, st1)
  else if op = "<=" ∨ op = "LE" then
    match value with
    | .none => .error (.validation (operator ++ " requires one value"))
    | v => let (r, st1) := condValueRef st (ser ad v); .ok (nameRef ++ " <= " ++ r, st1)
  else if op = ">" ∨ op = "GT" then
    match value with
    | .none => .error (.validation (operator ++ " requires one value"))
    | v => let (r, st1) := condValueRef st (ser ad v); .ok (nameRef ++ " > " ++ r, st1)
  else if op = ">=" ∨ op = "GE" then
    match value with
    | .none => .error (.validation (operator ++ " requires one value"))
    | v => let (r, st1) := condValueRef st (ser ad v); .ok (nameRef ++ " >= " ++ r, st1)
  else if op = "BETWEEN" then
    match value with
    | .list [a, b] =>
      let (r1, st1) := condValueRef st (ser ad a)
      let (r2, st2) := condValueRef st1 (ser ad b)
      .ok (nameRef ++ " BETWEEN " ++ r1 ++ " AND " ++ r2, st2)
    | .tuple [a, b] =>
      let (r1, st1) := condValueRef st (ser ad a)
      let (r2, st2) := condValueRef st1 (ser ad b)
      .ok (nameRef ++ " BETWEEN " ++ r1 ++ " AND " ++ r2, st2)
    | _ => .error (.validation "BETWEEN requires two values")
  else if op = "IN" then
    match value with
    | .none => .error (.validation "IN requires a sequence of values")
    | .list xs =>
      if xs.length > 100 then .error (.validation "IN supports maximum 100 values")
      else
        let (refs, st1) := xs.foldl (fun (acc : List String × CondState) v =>
          let (r, st2) := condValueRef acc.2 (ser ad v)
          (acc.1 ++ [r], st2)) ([], st)
        .ok (nameRef ++ " IN (" ++ String.intercalate ", " refs ++ ")", st1)
    | .tuple xs =>
      if xs.length > 100 then .error (.validation "IN supports maximum 100 values")
      else
        let (refs, st1) := xs.foldl (fun (acc : List String × CondState) v =>
          let (r, st2) := condValueRef acc.2 (ser ad v)
          (acc.1 ++ [r], st2)) ([], st)
        .ok (nameRef ++ " IN (" ++ String.intercalate ", " refs ++ ")", st1)
    | _ => .error (.validation "IN requires a sequence of values")
  else if op = "BEGINS_WITH" then
    match value with
    | .none => .error (.validation (operator ++ " requires one value"))
    | v =>
      let (r, st1) := condValueRef st (ser ad v)
      .ok ("begins_with(" ++ nameRef ++ ", " ++ r ++ ")", st1)
  else if op = "CONTAINS" then
    match value with
    | .none => .error (.validation (operator ++ " requires one value"))
    | v =>
      let (r, st1) := condValueRef st (ser ad v)
      .ok ("contains(" ++ nameRef ++ ", " ++ r ++ ")", st1)
  else .error (.validation ("unsupported condition operator: " ++ operator))

/-- The condition loop: build each term, recording the joining logic for
every term after the first. -/
def applyConds (m : ModelDefinition) (ser : AttrSerializer) :
    CondState → List BuilderCond → Except TableErr CondState
  | st, [] => .ok st
  | st, c :: rest =>
    match conditionNameRef m st c.field with
    | .error e => .error e
    | .ok (nameRef, ad, st1) =>
      match buildConditionTerm ser nameRef ad c.operator c.value st1 with
      | .error e => .error e
      | .ok (term, st2) =>
        let st3 := { st2 with
          parts := st2.parts ++ [term]
          logics := if st2.parts.length + 1 > 1 then st2.logics ++ [c.logic] else st2.logics }
        applyConds m ser st3 rest

/-- Join condition terms left to right with their recorded logics. -/
def joinCondParts : String → List String → List String → String
  | out, [], _ => out
  | out, _ :: _, [] => out
  | out, p :: ps, l :: ls => joinCondParts (out ++ " " ++ l ++ " " ++ p) ps ls

/-- Model of `UpdateBuilder._build_request`: compile the key, run the update
loop, join the four clauses in the fixed order SET, REMOVE, ADD, DELETE
(omitting empty ones), reject an empty expression, then compile the
conditions into one expression sharing the name map. -/
def builderBuildRequest (m : ModelDefinition) (ser : AttrSerializer)
    (serRaw : PyVal → AttrVal) (pk : PyVal) (sk : Option PyVal)
    (ops : List UpdateOp) (conds : List BuilderCond) (returnValues : String) :
    Except TableErr UpdateRequest :=
  match toKey m ser pk sk with
  | .error e => .error e
  | .ok key =>
    match applyUpdateOps m ser serRaw
        ⟨[], [], 0, [], [], [], []⟩ ops with
    | .error e => .error e
    | .ok st =>
      let exprParts : List String :=
        (if st.setParts.isEmpty then []
         else ["SET " ++ String.intercalate ", " st.setParts])
        ++ (if st.removeParts.isEmpty then []
            else ["REMOVE " ++ String.intercalate ", " st.removeParts])
        ++ (if st.addParts.isEmpty then []
            else ["ADD " ++ String.intercalate ", " st.addParts])
        ++ (if st.deleteParts.isEmpty then []
            else ["DELETE " ++ String.intercalate ", " st.deleteParts])
      let updateExpr := String.intercalate " " exprParts
      if updateExpr = "" then .error (.validation "no updates provided")
      else
        match applyConds m ser ⟨st.names, [], 0, [], []⟩ conds with
        | .error e => .error e
        | .ok cst =>
          let condExpr : Option String :=
            match cst.parts with
            | [] => none
            | p0 :: ps => some (joinCondParts p0 ps cst.logics)
          .ok
            { key := key
              updateExpression := updateExpr
              names := cst.names
              values := st.updateValues ++ cst.condValues
              returnValues := some returnValues
              conditionExpression := condExpr }

/-- Model of `UpdateBuilder.execute`: an empty chain fails up front; after
the store call the new state is returned when attributes came back, and
`None` (not an error) otherwise. -/
def builderExecute {α : Type} (m : ModelDefinition) (ser : AttrSerializer)
    (serRaw : PyVal → AttrVal) (fromItem : List (String × AttrVal) → α)
    (client : UpdateRequest → UpdateResponse) (pk : PyVal) (sk : Option PyVal)
    (ops : List UpdateOp) (conds : List BuilderCond) (returnValues : String) :
    Except TableErr (Option α) :=
  if ops.isEmpty then .error (.validation "no updates provided")
  else
    match builderBuildRequest m ser serRaw pk sk ops conds returnValues with
    | .error e => .error e
    | .ok req =>
      let resp := client req
      if resp.attributes.isEmpty then .ok Option.none
      else .ok (some (fromItem resp.attributes))

/-- Evaluation of `_build_condition_term` at the `=` operator on a string
value. -/
theorem buildConditionTerm_eq_str (ser : AttrSerializer) (nameRef : String)
    (ad : AttributeDefinition) (v : String) (st : CondState) :
    buildConditionTerm ser nameRef ad "=" (.str v) st
      = .ok (nameRef ++ " = " ++ (":c" ++ toString (st.condCounter + 1)),
          { st with
            condCounter := st.condCounter + 1
            condValues := st.condValues
              ++ [(":c" ++ toString (st.condCounter + 1), ser ad (.str v))] }) := by
  rfl

/-- C2: compiling `set("name","v1").add("version",1).condition("name","=","v0")`
yields exactly the claimed update and condition expressions; the four
clauses keep the fixed SET, REMOVE, ADD, DELETE order regardless of call
order (shown by the reversed chain, whose value counters follow call order
while SET still precedes ADD); and an empty chain raises a validation
error. -/
theorem C2_update_builder_compilation
    (m : ModelDefinition) (ser : AttrSerializer) (serRaw : PyVal → AttrVal)
    (pk : PyVal) (sk : Option PyVal) (key : List (String × AttrVal))
    (adN adV : AttributeDefinition)
    (hN : m.attributes.lookup "name" = some adN)
    (hV : m.attributes.lookup "version" = some adV)
    (hkN : isKeyField m "name" = false)
    (hkV : isKeyField m "version" = false)
    (heN : adN.encrypted = false)
    (heV : adV.encrypted = false)
    (hsV : adV.set = false)
    (hkey : toKey m ser pk sk = .ok key) :
    ((builderBuildRequest m ser serRaw pk sk
        [.setOp "name" (.str "v1"), .add "version" (.int 1)]
        [⟨"AND", "name", "=", .str "v0"⟩] "NONE").toOption.map
          (fun r => (r.updateExpression, r.conditionExpression))
      = some ("SET #u_name = :u1 ADD #u_version :u2", some "#c_name = :c1"))
    ∧ ((builderBuildRequest m ser serRaw pk sk
        [.add "version" (.int 1), .setOp "name" (.str "v1")] [] "NONE").toOption.map
          (fun r => r.updateExpression)
      = some "SET #u_name = :u2 ADD #u_version :u1")
    ∧ builderBuildRequest m ser serRaw pk sk [] [] "NONE"
        = .error (.validation "no updates provided") := by
  refine ⟨?_, ?_, ?_⟩
  · simp only [builderBuildRequest, hkey, applyUpdateOps, applyUpdateOp,
      updateNameRef, hN, hV, hkN, hkV, heV, hsV, updateValueRef, setdefault,
      isNumericPy, applyConds, conditionNameRef, heN, buildConditionTerm_eq_str,
      condValueRef, joinCondParts]
    simp +decide [heV, hsV]
    exact ⟨_, rfl, rfl, rfl⟩
  · simp only [builderBuildRequest, hkey, applyUpdateOps, applyUpdateOp,
      updateNameRef, hN, hV, hkN, hkV, heV, hsV, updateValueRef, setdefault,
      isNumericPy, applyConds]
    simp +decide [heV, hsV]
    exact ⟨_, rfl, rfl⟩
  · simp +decide [builderBuildRequest, hkey, applyUpdateOps]

/-- A concrete three-field model (pk, name, version) for witnesses. -/
def c2Model : ModelDefinition :=
  { pk := ⟨"pk", "pk", ["pk"], false, false, false, false, false⟩
    sk := none
    attributes :=
      [("pk", ⟨"pk", "pk", ["pk"], false, false, false, false, false⟩),
       ("name", ⟨"name", "name", [], false, false, false, false, false⟩),
       ("version", ⟨"version", "version", [], false, false, false, false, false⟩)] }

/-- A trivial serializer standing in for the boto3 `TypeSerializer`. -/
def c2Ser : AttrSerializer := fun _ _ => AttrVal.NULL

/-- A trivial raw serializer. -/
def c2SerRaw : PyVal → AttrVal := fun _ => AttrVal.NULL

/-- Witness: the builder compilation at the concrete three-field model. -/
theorem C2_update_builder_compilation_witness :
    ((builderBuildRequest c2Model c2Ser c2SerRaw (.str "A") none
        [.setOp "name" (.str "v1"), .add "version" (.int 1)]
        [⟨"AND", "name", "=", .str "v0"⟩] "NONE").toOption.map
          (fun r => (r.updateExpression, r.conditionExpression))
      = some ("SET #u_name = :u1 ADD #u_version :u2", some "#c_name = :c1"))
    ∧ ((builderBuildRequest c2Model c2Ser c2SerRaw (.str "A") none
        [.add "version" (.int 1), .setOp "name" (.str "v1")] [] "NONE").toOption.map
          (fun r => r.updateExpression)
      = some "SET #u_name = :u2 ADD #u_version :u1")
    ∧ builderBuildRequest c2Model c2Ser c2SerRaw (.str "A") none [] [] "NONE"
        = .error (.validation "no updates provided") :=
  C2_update_builder_compilation c2Model c2Ser c2SerRaw (.str "A") none
    [("pk", AttrVal.NULL)]
    ⟨"name", "name", [], false, false, false, false, false⟩
    ⟨"version", "version", [], false, false, false, false, false⟩
    rfl rfl rfl rfl rfl rfl rfl rfl

/-! ### Omit-if-empty semantics (C9) and None-removes semantics (C10) -/

/-- The per-attribute emission step of `_to_item`. -/
def toItemStep (ser : AttrSerializer) (item : String → PyVal)
    (p : String × AttributeDefinition) : Option (String × AttrVal) :=
  if p.2.omitempty && isEmptyPy (item p.1) then Option.none
  else some (p.2.attribute_name, ser p.2 (item p.1))

/-- A successful `_to_item` returns exactly the filtered serialization. -/
theorem toItem_ok_eq (m : ModelDefinition) (ser : AttrSerializer)
    (item : String → PyVal) (out : List (String × AttrVal))
    (hout : toItem m ser item = .ok out) :
    out = m.attributes.filterMap (toItemStep ser item) := by
  simp only [toItem, toItemStep] at hout ⊢
  by_cases c1 : ¬ ((m.attributes.filterMap (fun p =>
      if (p.2.omitempty && isEmptyPy (item p.1)) = true then Option.none
      else some (p.2.attribute_name, ser p.2 (item p.1)))).any
        (fun q => q.1 = m.pk.attribute_name)) = true
  · rw [if_pos c1] at hout
    cases hout
  · rw [if_neg c1] at hout
    cases hsk : m.sk with
    | none =>
      rw [hsk] at hout
      dsimp only at hout
      cases hout
      rfl
    | some skAd =>
      rw [hsk] at hout
      dsimp only at hout
      by_cases c2 : ¬ ((m.attributes.filterMap (fun p =>
          if (p.2.omitempty && isEmptyPy (item p.1)) = true then Option.none
          else some (p.2.attribute_name, ser p.2 (item p.1)))).any
            (fun q => q.1 = skAd.attribute_name)) = true
      · rw [if_pos c2] at hout
        cases hout
      · rw [if_neg c2] at hout
        cases hout
        rfl

theorem toItemStep_name (ser : AttrSerializer) (item : String → PyVal)
    (p : String × AttributeDefinition) (name : String) (av : AttrVal)
    (h : toItemStep ser item p = some (name, av)) : name = p.2.attribute_name := by
  unfold toItemStep at h
  split at h
  · cases h
  · cases h
    rfl

theorem filterMap_toItemStep_not_mem (ser : AttrSerializer) (item : String → PyVal)
    (l : List (String × AttributeDefinition)) (name : String)
    (hname : name ∉ l.map (fun p => p.2.attribute_name)) :
    ∀ av, (name, av) ∉ l.filterMap (toItemStep ser item) := by
  intro av hmem
  obtain ⟨p, hp, hstep⟩ := List.mem_filterMap.mp hmem
  have := toItemStep_name ser item p name av hstep
  exact hname (this ▸ List.mem_map_of_mem _ hp)

/-- Presence in the emitted item is exactly survival of the omit-if-empty
check, provided wire attribute names are unique. -/
theorem filterMap_toItemStep_mem (ser : AttrSerializer) (item : String → PyVal) :
    ∀ (l : List (String × AttributeDefinition)),
      (l.map (fun p => p.2.attribute_name)).Nodup →
      ∀ (f : String) (ad : AttributeDefinition), (f, ad) ∈ l →
        ((∃ av, (ad.attribute_name, av) ∈ l.filterMap (toItemStep ser item)) ↔
          ¬ (ad.omitempty = true ∧ isEmptyPy (item f) = true)) := by
  intro l
  induction l with
  | nil =>
    intro _ f ad hmem
    simp at hmem
  | cons q rest ih =>
    intro hnodup f ad hmem
    obtain ⟨fn, a⟩ := q
    have hnodup' : (rest.map (fun p => p.2.attribute_name)).Nodup :=
      (List.nodup_cons.mp hnodup).2
    have hhead : a.attribute_name ∉ rest.map (fun p => p.2.attribute_name) :=
      (List.nodup_cons.mp hnodup).1
    rcases List.mem_cons.mp hmem with heq | hrest
    · cases heq
      by_cases hskip : ad.omitempty && isEmptyPy (item f)
      · have hstep : toItemStep ser item (f, ad) = Option.none := by
          unfold toItemStep
          rw [if_pos hskip]
        constructor
        · intro ⟨av, hav⟩
          rw [List.filterMap_cons, hstep] at hav
          exact absurd hav (filterMap_toItemStep_not_mem ser item rest _ hhead av)
        · intro hcon
          exact absurd (by simpa [Bool.and_eq_true] using hskip) hcon
      · have hstep : toItemStep ser item (f, ad)
            = some (ad.attribute_name, ser ad (item f)) := by
          unfold toItemStep
          rw [if_neg hskip]
        constructor
        · intro _
          simp [Bool.and_eq_true] at hskip
          intro ⟨h1, h2⟩
          rw [h1] at hskip
          exact absurd h2 (by simpa using hskip)
        · intro _
          refine ⟨ser ad (item f), ?_⟩
          rw [List.filterMap_cons, hstep]
          exact List.mem_cons_self _ _
    · have hne : a.attribute_name ≠ ad.attribute_name := by
        intro hcon
        exact hhead (hcon ▸ List.mem_map_of_mem _ hrest)
      have hiff := ih hnodup' f ad hrest
      rw [List.filterMap_cons]
      cases hstep : toItemStep ser item (fn, a) with
      | none => exact hiff
      | some q2 =>
        obtain ⟨name2, av2⟩ := q2
        have : name2 = a.attribute_name := toItemStep_name ser item (fn, a) name2 av2 hstep
        subst this
        constructor
        · intro ⟨av, hav⟩
          rcases List.mem_cons.mp hav with heq2 | hmem2
          · exact absurd (congrArg Prod.fst heq2).symm hne
          · exact hiff.mp ⟨av, hmem2⟩
        · intro hcon
          obtain ⟨av, hav⟩ := hiff.mpr hcon
          exact ⟨av, List.mem_cons_of_mem _ hav⟩

/-- `_is_empty` judges exactly the nine empty shapes: `None`, `False`, the
integer zero, the empty string, empty bytes, and empty list/dict/set/tuple. -/
theorem isEmptyPy_iff (v : PyVal) :
    isEmptyPy v = true ↔
      (v = .none ∨ v = .bool false ∨ v = .int 0 ∨ v = .str "" ∨ v = .bytes [] ∨
       v = .list [] ∨ v = .dict [] ∨ v = .set [] ∨ v = .tuple []) := by
  cases v <;> simp [isEmptyPy, String.isEmpty_iff, List.isEmpty_iff]

/-- C9: in every item `_to_item` successfully serializes for a write (wire
attribute names assumed distinct), an attribute flagged omit-if-empty is
absent from the stored item exactly when its Python value is `None`, `False`,
the integer zero, an empty string or bytes, or an empty list/dict/set/tuple
— in particular `0` and `False` count as empty and are dropped. -/
theorem C9_omit_if_empty (m : ModelDefinition) (ser : AttrSerializer)
    (item : String → PyVal) (out : List (String × AttrVal))
    (hnodup : (m.attributes.map (fun p => p.2.attribute_name)).Nodup)
    (hout : toItem m ser item = .ok out)
    (f : String) (ad : AttributeDefinition)
    (hmem : (f, ad) ∈ m.attributes) (homit : ad.omitempty = true) :
    ((∀ av, (ad.attribute_name, av) ∉ out) ↔
      (item f = .none ∨ item f = .bool false ∨ item f = .int 0 ∨
       item f = .str "" ∨ item f = .bytes [] ∨ item f = .list [] ∨
       item f = .dict [] ∨ item f = .set [] ∨ item f = .tuple [])) := by
  have hfe := toItem_ok_eq m ser item out hout
  subst hfe
  have h2 := filterMap_toItemStep_mem ser item m.attributes hnodup f ad hmem
  constructor
  · intro hnone
    refine (isEmptyPy_iff _).mp ?_
    by_contra hne
    obtain ⟨av, hav⟩ := h2.mpr (fun hc => hne hc.2)
    exact hnone av hav
  · intro henum av hav
    exact h2.mp ⟨av, hav⟩ ⟨homit, (isEmptyPy_iff _).mpr henum⟩

/-- A two-field model whose "count" attribute is flagged omit-if-empty. -/
def c9PkAd : AttributeDefinition := ⟨"pk", "pk", ["pk"], false, false, false, false, false⟩

/-- The omit-if-empty attribute of the witness model. -/
def c9CountAd : AttributeDefinition := ⟨"count", "count", [], true, false, false, false, false⟩

/-- The witness model for the omit-if-empty claim. -/
def c9Model : ModelDefinition :=
  { pk := c9PkAd
    sk := none
    attributes := [("pk", c9PkAd), ("count", c9CountAd)] }

/-- A trivial serializer for the omit-if-empty witness. -/
def c9Ser : AttrSerializer := fun _ _ => AttrVal.NULL

/-- A concrete item whose "count" field holds the integer zero. -/
def c9Item : String → PyVal := fun f => if f = "pk" then .str "A" else .int 0

/-- The serialized form of the witness item. -/
def c9Out : List (String × AttrVal) := [("pk", AttrVal.NULL)]

/-- Witness: the omit-if-empty field "count" holding the integer 0 is absent
from the serialized item of the concrete model. -/
theorem C9_omit_if_empty_witness : ("count", AttrVal.NULL) ∉ c9Out := by
  have h := C9_omit_if_empty c9Model c9Ser c9Item c9Out (by decide) rfl
      "count" c9CountAd (by decide) rfl
  exact h.mpr (Or.inr (Or.inr (Or.inl rfl))) AttrVal.NULL

/-- True exactly on a raised `ValidationError`. -/
def isValidationErr {α : Type} : Except TableErr α → Bool
  | .error (.validation _) => true
  | _ => false

/-- On success, the SET clause holds exactly the non-`None` fields and the
REMOVE clause exactly the `None` fields, in iteration order. -/
theorem buildUpdateParts_ok (m : ModelDefinition) (ser : AttrSerializer) :
    ∀ (updates : List (String × PyVal)) names values setParts removeParts,
      buildUpdateParts m ser updates = .ok (names, values, setParts, removeParts) →
      setParts = (updates.filter (fun p => !(isNonePy p.2))).map
          (fun p => "#d_" ++ p.1 ++ " = " ++ (":d_" ++ p.1)) ∧
      removeParts = (updates.filter (fun p => isNonePy p.2)).map
          (fun p => "#d_" ++ p.1) := by
  intro updates
  induction updates with
  | nil =>
    intro names values setParts removeParts h
    simp only [buildUpdateParts, Except.ok.injEq, Prod.mk.injEq] at h
    obtain ⟨h1, h2, h3, h4⟩ := h
    subst h3
    subst h4
    exact ⟨rfl, rfl⟩
  | cons q rest ih =>
    intro names values setParts removeParts h
    obtain ⟨f, v⟩ := q
    simp only [buildUpdateParts] at h
    cases hlk : m.attributes.lookup f with
    | none =>
      rw [hlk] at h
      cases h
    | some ad =>
      rw [hlk] at h
      dsimp only at h
      by_cases hkey : isKeyField m f = true
      · rw [if_pos hkey] at h
        cases h
      · rw [if_neg hkey] at h
        cases hrec : buildUpdateParts m ser rest with
        | error e =>
          rw [hrec] at h
          cases h
        | ok tup =>
          obtain ⟨names2, values2, setParts2, removeParts2⟩ := tup
          rw [hrec] at h
          dsimp only at h
          obtain ⟨hs2, hr2⟩ := ih names2 values2 setParts2 removeParts2 hrec
          by_cases hnone : isNonePy v = true
          · rw [if_pos hnone] at h
            simp only [Except.ok.injEq, Prod.mk.injEq] at h
            obtain ⟨h1, h2, h3, h4⟩ := h
            subst h3
            subst h4
            refine ⟨?_, ?_⟩
            · simp [List.filter_cons, hnone, hs2]
            · simp [List.filter_cons, hnone, hr2]
          · rw [if_neg hnone] at h
            simp only [Except.ok.injEq, Prod.mk.injEq] at h
            obtain ⟨h1, h2, h3, h4⟩ := h
            subst h3
            subst h4
            have hnone' : isNonePy v = false := by
              cases hb : isNonePy v
              · rfl
              · exact absurd hb hnone
            refine ⟨?_, ?_⟩
            · simp [List.filter_cons, hnone', hs2]
            · simp [List.filter_cons, hnone', hr2]

/-- An unknown or key field anywhere in the update map makes the compilation
loop fail with a validation error. -/
theorem buildUpdateParts_err (m : ModelDefinition) (ser : AttrSerializer) :
    ∀ (updates : List (String × PyVal)) (f : String) (v : PyVal),
      (f, v) ∈ updates →
      (m.attributes.lookup f = Option.none ∨ isKeyField m f = true) →
      ∃ msg, buildUpdateParts m ser updates = .error (.validation msg) := by
  intro updates
  induction updates with
  | nil =>
    intro f v hmem _
    simp at hmem
  | cons q rest ih =>
    intro f v hmem hbad
    obtain ⟨g, w⟩ := q
    cases hlk : m.attributes.lookup g with
    | none =>
      refine ⟨"unknown field: " ++ g, ?_⟩
      simp only [buildUpdateParts, hlk]
    | some ad =>
      by_cases hkey : isKeyField m g = true
      · refine ⟨"cannot update key field: " ++ g, ?_⟩
        simp only [buildUpdateParts, hlk]
        rw [if_pos hkey]
      · have hrest : (f, v) ∈ rest := by
          rcases List.mem_cons.mp hmem with heq | hr
          · exfalso
            have hg : f = g := congrArg Prod.fst heq
            subst hg
            rcases hbad with h1 | h2
            · rw [hlk] at h1
              cases h1
            · exact hkey h2
          · exact hr
        obtain ⟨msg, hmsg⟩ := ih f v hrest hbad
        refine ⟨msg, ?_⟩
        simp only [buildUpdateParts, hlk]
        rw [if_neg hkey, hmsg]

/-- A key compilation failure is always a validation error. -/
theorem toKey_err_validation (m : ModelDefinition) (ser : AttrSerializer)
    (pk : PyVal) (sk : Option PyVal) (e : TableErr)
    (h : toKey m ser pk sk = .error e) : ∃ msg, e = .validation msg := by
  cases pk <;> cases hms : m.sk <;> cases sk <;>
    simp only [toKey, hms] at h <;>
    first
    | (cases h; exact ⟨_, rfl⟩)
    | cases h

/-- C10: in the field-update map API, a declared non-key field supplied as
`None` compiles into the REMOVE clause and every other field into a SET
assignment (in iteration order), while an unknown or key field anywhere in
the map makes `update` raise a validation error whose outcome is the same
for every client — i.e. before any request is sent. -/
theorem C10_none_removes (m : ModelDefinition) (ser : AttrSerializer)
    (updates : List (String × PyVal)) :
    (∀ names values setParts removeParts,
        buildUpdateParts m ser updates = .ok (names, values, setParts, removeParts) →
        setParts = (updates.filter (fun p => !(isNonePy p.2))).map
            (fun p => "#d_" ++ p.1 ++ " = " ++ (":d_" ++ p.1)) ∧
        removeParts = (updates.filter (fun p => isNonePy p.2)).map
            (fun p => "#d_" ++ p.1)) ∧
    (∀ f v, (f, v) ∈ updates →
        (m.attributes.lookup f = Option.none ∨ isKeyField m f = true) →
        ∀ (α : Type) (fromItem : List (String × AttrVal) → α)
          (client client2 : UpdateRequest → UpdateResponse)
          (pk : PyVal) (sk : Option PyVal) (cond : Option String)
          (extraN : List (String × String)) (extraV : List (String × AttrVal)),
          isValidationErr
              (tableUpdate m ser fromItem client pk sk updates cond extraN extraV)
            = true ∧
          tableUpdate m ser fromItem client pk sk updates cond extraN extraV
            = tableUpdate m ser fromItem client2 pk sk updates cond extraN extraV) := by
  constructor
  · exact fun names values setParts removeParts h =>
      buildUpdateParts_ok m ser updates names values setParts removeParts h
  · intro f v hmem hbad α fromItem client client2 pk sk cond extraN extraV
    obtain ⟨msg, hmsg⟩ := buildUpdateParts_err m ser updates f v hmem hbad
    have hreq : ∃ msg2,
        buildUpdateRequest m ser pk sk updates cond extraN extraV (some "ALL_NEW")
          = .error (.validation msg2) := by
      cases htk : toKey m ser pk sk with
      | error e =>
        obtain ⟨msg2, rfl⟩ := toKey_err_validation m ser pk sk e htk
        exact ⟨msg2, by simp only [buildUpdateRequest, htk]⟩
      | ok key =>
        refine ⟨msg, ?_⟩
        simp only [buildUpdateRequest, htk, hmsg]
    obtain ⟨msg2, hm2⟩ := hreq
    constructor
    · simp only [tableUpdate, hm2]
      rfl
    · simp only [tableUpdate, hm2]

/-- A three-field model for the None-removes witness. -/
def c10Model : ModelDefinition :=
  { pk := ⟨"pk", "pk", ["pk"], false, false, false, false, false⟩
    sk := none
    attributes :=
      [("pk", ⟨"pk", "pk", ["pk"], false, false, false, false, false⟩),
       ("name", ⟨"name", "name", [], false, false, false, false, false⟩),
       ("tags", ⟨"tags", "tags", [], false, false, false, false, false⟩)] }

/-- A trivial serializer for the None-removes witness. -/
def c10Ser : AttrSerializer := fun _ _ => AttrVal.NULL

/-- A concrete update map: "name" set to a string, "tags" set to `None`. -/
def c10Updates : List (String × PyVal) := [("name", .str "v1"), ("tags", .none)]

/-- A client whose response carries no attributes. -/
def c10Client : UpdateRequest → UpdateResponse := fun _ => ⟨[]⟩

/-- A client whose response carries one attribute. -/
def c10Client2 : UpdateRequest → UpdateResponse := fun _ => ⟨[("pk", AttrVal.NULL)]⟩

/-- Witness: the concrete map compiles "name" into the SET clause and "tags"
into the REMOVE clause, and updating the key field "pk" yields the same
validation error under two different clients. -/
theorem C10_none_removes_witness :
    (["#d_name = :d_name"]
        = (c10Updates.filter (fun p => !(isNonePy p.2))).map
            (fun p => "#d_" ++ p.1 ++ " = " ++ (":d_" ++ p.1)) ∧
     ["#d_tags"]
        = (c10Updates.filter (fun p => isNonePy p.2)).map
            (fun p => "#d_" ++ p.1)) ∧
    (isValidationErr (tableUpdate c10Model c10Ser (fun l => l) c10Client (.str "A")
        Option.none [("pk", PyVal.int 1)] Option.none [] []) = true ∧
     tableUpdate c10Model c10Ser (fun l => l) c10Client (.str "A")
        Option.none [("pk", PyVal.int 1)] Option.none [] []
       = tableUpdate c10Model c10Ser (fun l => l) c10Client2 (.str "A")
        Option.none [("pk", PyVal.int 1)] Option.none [] []) := by
  constructor
  · exact (C10_none_removes c10Model c10Ser c10Updates).1
      [("#d_name", "name"), ("#d_tags", "tags")] [(":d_name", AttrVal.NULL)]
      ["#d_name = :d_name"] ["#d_tags"] rfl
  · exact (C10_none_removes c10Model c10Ser [("pk", PyVal.int 1)]).2
      "pk" (PyVal.int 1) (List.mem_cons_self _ _) (Or.inr rfl)
      (List (String × AttrVal)) (fun l => l) c10Client c10Client2
      (.str "A") Option.none Option.none [] []

/-! ### Update result handling (C8) -/

/-- A two-field model for the update-result-handling claim. -/
def c8Model : ModelDefinition :=
  { pk := ⟨"pk", "pk", ["pk"], false, false, false, false, false⟩
    sk := none
    attributes :=
      [("pk", ⟨"pk", "pk", ["pk"], false, false, false, false, false⟩),
       ("name", ⟨"name", "name", [], false, false, false, false, false⟩)] }

/-- A trivial serializer for the update-result-handling claim. -/
def c8Ser : AttrSerializer := fun _ _ => AttrVal.NULL

/-- A trivial raw serializer for the update-result-handling claim. -/
def c8SerRaw : PyVal → AttrVal := fun _ => AttrVal.NULL

/-- A client whose UpdateItem response carries no attributes. -/
def c8ClientEmpty : UpdateRequest → UpdateResponse := fun _ => ⟨[]⟩

/-- A store response with no attributes makes the executed update builder
return `None` rather than raise the structured "no attributes returned"
error the claim asserts for it. -/
theorem C8_counterexample :
    builderExecute c8Model c8Ser c8SerRaw (fun l : List (String × AttrVal) => l)
        c8ClientEmpty (.str "A") Option.none [.setOp "name" (.str "v1")] [] "ALL_NEW"
      = .ok Option.none ∧
    isValidationErr (builderExecute c8Model c8Ser c8SerRaw
        (fun l : List (String × AttrVal) => l)
        c8ClientEmpty (.str "A") Option.none [.setOp "name" (.str "v1")] [] "ALL_NEW")
      = false :=
  ⟨rfl, rfl⟩

/-- C8 (amended): when the compiled request goes through and the store's
response carries attributes, both the field-update map API and the executed
builder return the deserialized new state; when the response carries no
attributes, the map API raises the structured "update did not return
Attributes" validation error while the builder returns `None`. -/
theorem C8_update_result_handling {α : Type} (m : ModelDefinition)
    (ser : AttrSerializer) (serRaw : PyVal → AttrVal)
    (fromItem : List (String × AttrVal) → α)
    (client : UpdateRequest → UpdateResponse) (attrs : List (String × AttrVal))
    (hclient : ∀ r, client r = ⟨attrs⟩)
    (pk : PyVal) (sk : Option PyVal) (updates : List (String × PyVal))
    (cond : Option String) (extraN : List (String × String))
    (extraV : List (String × AttrVal))
    (ops : List UpdateOp) (conds : List BuilderCond) (rv : String)
    (hupd : ∃ req, buildUpdateRequest m ser pk sk updates cond extraN extraV
        (some "ALL_NEW") = .ok req)
    (hops : ops.isEmpty = false)
    (hbld : ∃ req2, builderBuildRequest m ser serRaw pk sk ops conds rv = .ok req2) :
    (attrs.isEmpty = true →
        tableUpdate m ser fromItem client pk sk updates cond extraN extraV
          = .error (.validation "update did not return Attributes") ∧
        builderExecute m ser serRaw fromItem client pk sk ops conds rv
          = .ok Option.none) ∧
    (attrs.isEmpty = false →
        tableUpdate m ser fromItem client pk sk updates cond extraN extraV
          = .ok (fromItem attrs) ∧
        builderExecute m ser serRaw fromItem client pk sk ops conds rv
          = .ok (some (fromItem attrs))) := by
  obtain ⟨req, hreq⟩ := hupd
  obtain ⟨req2, hreq2⟩ := hbld
  constructor
  · intro hemp
    constructor
    · simp [tableUpdate, hreq, hclient, hemp]
    · simp [builderExecute, hops, hreq2, hclient, hemp]
  · intro hnemp
    constructor
    · simp [tableUpdate, hreq, hclient, hnemp]
    · simp [builderExecute, hops, hreq2, hclient, hnemp]

/-- Witness: at the concrete model and an empty-response client, the map API
raises the structured error while the executed builder returns `None`. -/
theorem C8_update_result_handling_witness :
    tableUpdate c8Model c8Ser (fun l : List (String × AttrVal) => l) c8ClientEmpty
        (.str "A") Option.none [("name", PyVal.str "v1")] Option.none [] []
      = .error (.validation "update did not return Attributes") ∧
    builderExecute c8Model c8Ser c8SerRaw (fun l : List (String × AttrVal) => l)
        c8ClientEmpty (.str "A") Option.none [.setOp "name" (.str "v1")] [] "ALL_NEW"
      = .ok Option.none := by
  exact (C8_update_result_handling c8Model c8Ser c8SerRaw
      (fun l : List (String × AttrVal) => l) c8ClientEmpty [] (fun _ => rfl)
      (.str "A") Option.none [("name", PyVal.str "v1")] Option.none [] []
      [.setOp "name" (.str "v1")] [] "ALL_NEW"
      ⟨_, rfl⟩ rfl ⟨_, rfl⟩).1 rfl

/-! ### Batch retry bound (C4) -/

/-- `_chunked` (table.py): successive slices of `size` elements, here with
the list length as structural fuel. -/
def chunkedAux {α : Type} (size : Nat) : Nat → List α → List (List α)
  | _, [] => []
  | 0, _ :: _ => []
  | fuel + 1, x :: xs => ((x :: xs).take size) :: chunkedAux size fuel ((x :: xs).drop size)

/-- `_chunked(items, size)`. -/
def chunked {α : Type} (size : Nat) (l : List α) : List (List α) :=
  chunkedAux size l.length l

/-- One chunk's retry loop of `batch_get`/`batch_write`: call the backend
(`respond` maps the submitted keys/items to the unprocessed ones), stop when
nothing is unprocessed, raise `BatchRetryExceededError` once the retry
budget is exhausted, else retry on the unprocessed remainder.  The second
component counts backend calls. -/
def batchLoop {κ : Type} (respond : List κ → List κ) (op : String) :
    Nat → List κ → Nat → (Except TableErr Unit) × Nat
  | _, [], calls => (.ok (), calls)
  | budget, k :: ks, calls =>
    match budget, respond (k :: ks) with
    | _, [] => (.ok (), calls + 1)
    | 0, u :: us => (.error (.batchRetryExceeded op (u :: us).length), calls + 1)
    | b + 1, u :: us => batchLoop respond op b (u :: us) (calls + 1)

/-- Run the per-chunk loop over all chunks, stopping at the first error. -/
def runChunks {κ : Type} (respond : List κ → List κ) (op : String) (maxRetries : Nat) :
    List (List κ) → Nat → (Except TableErr Unit) × Nat
  | [], calls => (.ok (), calls)
  | c :: cs, calls =>
    match batchLoop respond op maxRetries c calls with
    | (.ok _, calls2) => runChunks respond op maxRetries cs calls2
    | (.error e, calls2) => (.error e, calls2)

/-- The retry skeleton of `Table.batch_get`: 100-key chunks. -/
def batchGet {κ : Type} (respond : List κ → List κ) (maxRetries : Nat)
    (keys : List κ) : (Except TableErr Unit) × Nat :=
  runChunks respond "batch_get" maxRetries (chunked 100 keys) 0

/-- The retry skeleton of `Table.batch_write`: 25-request chunks. -/
def batchWrite {κ : Type} (respond : List κ → List κ) (maxRetries : Nat)
    (reqs : List κ) : (Except TableErr Unit) × Nat :=
  runChunks respond "batch_write" maxRetries (chunked 25 reqs) 0

/-- Against an always-unprocessed backend the chunk loop raises
`BatchRetryExceededError` with the full pending count after exactly
`budget + 1` calls. -/
theorem batchLoop_always_unprocessed {κ : Type} (respond : List κ → List κ)
    (hresp : ∀ l, respond l = l) (op : String) :
    ∀ (budget : Nat) (pending : List κ) (calls : Nat), pending ≠ [] →
      batchLoop respond op budget pending calls
        = (.error (.batchRetryExceeded op pending.length), calls + budget + 1) := by
  intro budget
  induction budget with
  | zero =>
    intro pending calls hne
    cases pending with
    | nil => exact absurd rfl hne
    | cons k ks =>
      rw [batchLoop.eq_def]
      simp [hresp]
  | succ b ih =>
    intro pending calls hne
    cases pending with
    | nil => exact absurd rfl hne
    | cons k ks =>
      have h2 := ih (k :: ks) (calls + 1) (List.cons_ne_nil k ks)
      rw [batchLoop.eq_def]
      simp [hresp, h2, Prod.ext_iff]
      omega

/-- The first chunk of an always-unprocessed run exhausts the whole budget. -/
theorem runChunks_always_unprocessed {κ : Type} (respond : List κ → List κ)
    (hresp : ∀ l, respond l = l) (op : String) (maxRetries size : Nat)
    (hsize : 0 < size) (l : List κ) (hne : l ≠ []) :
    runChunks respond op maxRetries (chunked size l) 0
      = (.error (.batchRetryExceeded op (l.take size).length), maxRetries + 1) := by
  cases l with
  | nil => exact absurd rfl hne
  | cons x xs =>
    have htake : (x :: xs).take size ≠ [] := by
      cases size with
      | zero => exact absurd hsize (by simp)
      | succ s => simp [List.take]
    have hchunk : chunked size (x :: xs)
        = ((x :: xs).take size) :: chunkedAux size xs.length ((x :: xs).drop size) := by
      simp [chunked, chunkedAux]
    rw [hchunk, runChunks]
    rw [batchLoop_always_unprocessed respond hresp op maxRetries ((x :: xs).take size) 0 htake]
    simp

/-- C4: against a backend that reports every submitted key/item as
unprocessed on every call, `batch_get` and `batch_write` raise
`BatchRetryExceededError` carrying the operation name and the remaining
unprocessed count (the first chunk, capped at 100 keys / 25 requests) after
exactly `maxRetries + 1` backend calls. -/
theorem C4_batch_retry_bound {κ : Type} (respond : List κ → List κ)
    (hresp : ∀ l, respond l = l) (maxRetries : Nat)
    (keys reqs : List κ) (hkeys : keys ≠ []) (hreqs : reqs ≠ []) :
    batchGet respond maxRetries keys
      = (.error (.batchRetryExceeded "batch_get" (keys.take 100).length),
          maxRetries + 1) ∧
    batchWrite respond maxRetries reqs
      = (.error (.batchRetryExceeded "batch_write" (reqs.take 25).length),
          maxRetries + 1) := by
  constructor
  · exact runChunks_always_unprocessed respond hresp "batch_get" maxRetries 100
      (by norm_num) keys hkeys
  · exact runChunks_always_unprocessed respond hresp "batch_write" maxRetries 25
      (by norm_num) reqs hreqs

/-- Witness: with three keys, one request and `maxRetries = 2`, both batch
operations fail with the full unprocessed count after exactly three calls. -/
theorem C4_batch_retry_bound_witness :
    batchGet (fun l : List Nat => l) 2 [1, 2, 3]
      = (.error (.batchRetryExceeded "batch_get" 3), 3) ∧
    batchWrite (fun l : List Nat => l) 2 [7]
      = (.error (.batchRetryExceeded "batch_write" 1), 3) := by
  exact C4_batch_retry_bound (fun l : List Nat => l) (fun _ => rfl) 2
    [1, 2, 3] [7] (by simp) (by simp)

/-! ### Transaction cancellation mapping (C5) -/

/-- Python `needle` prefix-of check over character lists. -/
def charsHasPfx : List Char → List Char → Bool
  | [], _ => true
  | _ :: _, [] => false
  | a :: as, b :: bs => a == b && charsHasPfx as bs

/-- Python `needle in hay` substring check over character lists. -/
def charsHasSub (needle : List Char) : List Char → Bool
  | [] => charsHasPfx needle []
  | c :: rest => charsHasPfx needle (c :: rest) || charsHasSub needle rest

/-- Python `needle in hay` on strings. -/
def strIn (needle hay : String) : Bool := charsHasSub needle.data hay.data

/-- One entry of the `CancellationReasons` list: `reason.get("Code")`,
absent or a string (an empty string is falsy, like an absent one). -/
structure TxReason : Type where
  code : Option String
  deriving DecidableEq

/-- The extracted `reason_codes` tuple: the `Code` of every reason whose
`Code` is truthy, in order. -/
def reasonCodes (reasons : List TxReason) : List String :=
  reasons.filterMap (fun r =>
    match r.code with
    | some c => if c = "" then Option.none else some c
    | Option.none => Option.none)

/-- Model of `map_client_error` (aws_errors.py); `errStr` stands for
`str(err)`. -/
def mapClientError (code message errStr : String) : TableErr :=
  if code = "ConditionalCheckFailedException" then .conditionFailed message
  else if code = "ValidationException" then .validation message
  else if code = "ResourceNotFoundException" then .notFound message
  else .awsError (if code = "" then "UnknownError" else code)
    (if message = "" then errStr else message)

/-- Model of `map_transaction_error` (aws_errors.py): on a cancelled
transaction, promote to a condition failure when any truthy reason code is
`ConditionalCheckFailed` or the message contains that substring; otherwise
a transaction-cancelled error carrying the truthy reason codes. -/
def mapTransactionError (code message : String) (reasons : List TxReason)
    (errStr : String) : TableErr :=
  if code = "TransactionCanceledException" then
    let reason_codes := reasonCodes reasons
    if reason_codes.any (fun rc => rc == "ConditionalCheckFailed")
        || strIn "ConditionalCheckFailed" message then
      .conditionFailed
        (if message = "" then "transaction canceled: ConditionalCheckFailed" else message)
    else
      .transactionCanceled (if message = "" then "transaction canceled" else message)
        reason_codes
  else mapClientError code message errStr

/-- The backend outcome of `transact_write_items`: success, or a
`ClientError` with its code, message, cancellation reasons and `str(err)`. -/
structure ClientErrorR : Type where
  code : String
  message : String
  reasons : List TxReason
  errStr : String

/-- The error boundary of `Table.transact_write`: validate the action count,
send (compilation of the individual actions abstracted away), and map a
`ClientError` through `map_transaction_error`. -/
def transactWrite (actionsCount : Nat) (clientErr : Option ClientErrorR) :
    Except TableErr Unit :=
  if actionsCount = 0 then .error (.validation "actions is required")
  else if 100 < actionsCount then
    .error (.validation "a transaction supports at most 100 actions")
  else
    match clientErr with
    | Option.none => .ok ()
    | some e => .error (mapTransactionError e.code e.message e.reasons e.errStr)

/-- True exactly on a raised `ConditionFailedError`. -/
def isCondFailedE {α : Type} : Except TableErr α → Bool
  | .error (.conditionFailed _) => true
  | _ => false

/-- The reason codes of a raised `TransactionCanceledError`, if any. -/
def txCanceledCodes {α : Type} : Except TableErr α → Option (List String)
  | .error (.transactionCanceled _ rcs) => some rcs
  | _ => Option.none

/-- Membership in the extracted reason codes. -/
theorem reasonCodes_mem (reasons : List TxReason) (rc : String) :
    rc ∈ reasonCodes reasons ↔ (rc ≠ "" ∧ ∃ r ∈ reasons, r.code = some rc) := by
  simp only [reasonCodes, List.mem_filterMap]
  constructor
  · rintro ⟨r, hr, hf⟩
    cases hcode : r.code with
    | none =>
      rw [hcode] at hf
      cases hf
    | some c =>
      rw [hcode] at hf
      dsimp only at hf
      by_cases hc : c = ""
      · rw [if_pos hc] at hf
        cases hf
      · rw [if_neg hc] at hf
        cases hf
        exact ⟨hc, r, hr, hcode⟩
  · rintro ⟨hne, r, hr, hcode⟩
    refine ⟨r, hr, ?_⟩
    rw [hcode]
    dsimp only
    rw [if_neg hne]

/-- A cancelled transaction with no condition-check reason but a message
containing "ConditionalCheckFailed" is promoted to a condition failure, not
the transaction-cancelled error the claim's otherwise-branch demands. -/
theorem C5_counterexample :
    reasonCodes [⟨some "TransactionConflict"⟩] = ["TransactionConflict"] ∧
    ((["TransactionConflict"].any (fun rc => rc == "ConditionalCheckFailed")) = false) ∧
    transactWrite 1 (some ⟨"TransactionCanceledException",
        "ConditionalCheckFailed on item 2", [⟨some "TransactionConflict"⟩], ""⟩)
      = .error (.conditionFailed "ConditionalCheckFailed on item 2") ∧
    txCanceledCodes (transactWrite 1 (some ⟨"TransactionCanceledException",
        "ConditionalCheckFailed on item 2", [⟨some "TransactionConflict"⟩], ""⟩))
      = Option.none :=
  ⟨rfl, rfl, rfl, rfl⟩

/-- C5 (amended): on a cancelled transaction inside the action-count bounds,
a condition-check-failure reason yields ConditionFailedError; with no such
reason the result is TransactionCanceledError carrying exactly the truthy
reason codes when the message does not contain "ConditionalCheckFailed",
but is promoted to ConditionFailedError when it does. -/
theorem C5_transaction_cancellation (message errStr : String)
    (reasons : List TxReason) (n : Nat) (h1 : n ≠ 0) (h2 : n ≤ 100) :
    ((∃ r ∈ reasons, r.code = some "ConditionalCheckFailed") →
        isCondFailedE (transactWrite n (some ⟨"TransactionCanceledException",
            message, reasons, errStr⟩)) = true) ∧
    ((¬ ∃ r ∈ reasons, r.code = some "ConditionalCheckFailed") →
      strIn "ConditionalCheckFailed" message = false →
        txCanceledCodes (transactWrite n (some ⟨"TransactionCanceledException",
            message, reasons, errStr⟩)) = some (reasonCodes reasons)) ∧
    ((¬ ∃ r ∈ reasons, r.code = some "ConditionalCheckFailed") →
      strIn "ConditionalCheckFailed" message = true →
        isCondFailedE (transactWrite n (some ⟨"TransactionCanceledException",
            message, reasons, errStr⟩)) = true) := by
  have htw : transactWrite n (some ⟨"TransactionCanceledException", message,
      reasons, errStr⟩)
      = .error (mapTransactionError "TransactionCanceledException" message
          reasons errStr) := by
    unfold transactWrite
    rw [if_neg h1, if_neg (by omega)]
  refine ⟨?_, ?_, ?_⟩
  · rintro ⟨r, hr, hcode⟩
    have hmem : "ConditionalCheckFailed" ∈ reasonCodes reasons :=
      (reasonCodes_mem reasons "ConditionalCheckFailed").mpr
        ⟨by simp, r, hr, hcode⟩
    have hany : (reasonCodes reasons).any (fun rc => rc == "ConditionalCheckFailed")
        = true :=
      List.any_eq_true.mpr ⟨_, hmem, by simp⟩
    rw [htw]
    simp [mapTransactionError, hany, isCondFailedE]
  · intro hnone hsub
    have hany : (reasonCodes reasons).any (fun rc => rc == "ConditionalCheckFailed")
        = false := by
      cases hb : (reasonCodes reasons).any (fun rc => rc == "ConditionalCheckFailed") with
      | false => rfl
      | true =>
        exfalso
        obtain ⟨rc, hrc, hbeq⟩ := List.any_eq_true.mp hb
        have hrc2 : rc = "ConditionalCheckFailed" := by simpa using hbeq
        subst hrc2
        obtain ⟨-, r, hr, hcode⟩ := (reasonCodes_mem reasons _).mp hrc
        exact hnone ⟨r, hr, hcode⟩
    rw [htw]
    simp [mapTransactionError, hany, hsub, txCanceledCodes]
  · intro hnone hsub
    rw [htw]
    simp [mapTransactionError, hsub, isCondFailedE]

/-- Witness: the three branches of the cancellation mapping at concrete
reasons and messages. -/
theorem C5_transaction_cancellation_witness :
    isCondFailedE (transactWrite 2 (some ⟨"TransactionCanceledException", "",
        [⟨some "ConditionalCheckFailed"⟩, ⟨Option.none⟩], "e"⟩)) = true ∧
    txCanceledCodes (transactWrite 2 (some ⟨"TransactionCanceledException",
        "tx conflict", [⟨some "TransactionConflict"⟩, ⟨Option.none⟩], "e"⟩))
      = some ["TransactionConflict"] ∧
    isCondFailedE (transactWrite 2 (some ⟨"TransactionCanceledException",
        "ConditionalCheckFailed hit", [⟨some "TransactionConflict"⟩], "e"⟩)) = true := by
  refine ⟨?_, ?_, ?_⟩
  · exact (C5_transaction_cancellation ""
        "e" [⟨some "ConditionalCheckFailed"⟩, ⟨Option.none⟩] 2 (by decide) (by decide)).1
      ⟨⟨some "ConditionalCheckFailed"⟩, by decide, rfl⟩
  · exact (C5_transaction_cancellation "tx conflict"
        "e" [⟨some "TransactionConflict"⟩, ⟨Option.none⟩] 2 (by decide) (by decide)).2.1
      (by decide) rfl
  · exact (C5_transaction_cancellation "ConditionalCheckFailed hit"
        "e" [⟨some "TransactionConflict"⟩] 2 (by decide) (by decide)).2.2
      (by decide) rfl

/-! ### Lease acquisition (C6) -/

/-- The lease row stored for a key: its token and expiry (epoch seconds). -/
structure LeaseRow : Type where
  token : String
  expiresAt : Int
  deriving DecidableEq

/-- The conditional put's condition
`attribute_not_exists(#pk) OR #exp <= :now` evaluated against the current
row for the key. -/
def leaseCondition (row : Option LeaseRow) (now : Int) : Bool :=
  match row with
  | Option.none => true
  | some r => decide (r.expiresAt ≤ now)

/-- Model of `LeaseManager.acquire` for one key: validate, compute
`expires_at = now + lease_seconds`, issue the single conditional put
(`token` is the injected generator's output and `now` the truncated clock),
map a condition failure to `LeaseHeldError`, and return the lease's token
and expiry together with the stored row. -/
def leaseAcquire (row : Option LeaseRow) (pkv skv : String)
    (now leaseSeconds : Int) (token : String) :
    Except TableErr (String × Int × Option LeaseRow) :=
  if pkv = "" ∨ skv = "" then .error (.valueError "key.pk and key.sk are required")
  else if leaseSeconds ≤ 0 then .error (.valueError "lease_seconds must be > 0")
  else if leaseCondition row now then
    .ok (token, now + leaseSeconds, some ⟨token, now + leaseSeconds⟩)
  else .error (.leaseHeld "ConditionalCheckFailed")

/-- True exactly on a raised `LeaseHeldError`. -/
def isLeaseHeldE {α : Type} : Except TableErr α → Bool
  | .error (.leaseHeld _) => true
  | _ => false

/-- C6: with a valid key and `leaseSeconds > 0`, the single conditional
put's condition admits acquisition exactly when no lease row exists or the
stored expiry has passed; success returns the freshly generated token and
expiry `now + leaseSeconds` (and stores them); a condition failure raises
LeaseHeld.  In particular an acquire at t=1000 for 30s blocks a second
acquire at t=1000 and admits one at t=2000. -/
theorem C6_lease_acquisition (row : Option LeaseRow) (pkv skv : String)
    (hpk : pkv ≠ "") (hsk : skv ≠ "") (now leaseSeconds : Int)
    (hls : 0 < leaseSeconds) (token : String) :
    (leaseCondition row now = true ↔
        (row = Option.none ∨ ∃ r, row = some r ∧ r.expiresAt ≤ now)) ∧
    (leaseCondition row now = true →
        leaseAcquire row pkv skv now leaseSeconds token
          = .ok (token, now + leaseSeconds, some ⟨token, now + leaseSeconds⟩)) ∧
    (leaseCondition row now = false →
        isLeaseHeldE (leaseAcquire row pkv skv now leaseSeconds token) = true) ∧
    (leaseAcquire Option.none pkv skv 1000 30 token
        = .ok (token, 1030, some ⟨token, 1030⟩) ∧
     isLeaseHeldE (leaseAcquire (some ⟨token, 1030⟩) pkv skv 1000 30 token) = true ∧
     leaseAcquire (some ⟨token, 1030⟩) pkv skv 2000 30 token
        = .ok (token, 2030, some ⟨token, 2030⟩)) := by
  have hkey : ¬ (pkv = "" ∨ skv = "") := fun h => h.elim hpk hsk
  have hls2 : ¬ (leaseSeconds ≤ 0) := by omega
  refine ⟨?_, ?_, ?_, ?_, ?_, ?_⟩
  · cases row with
    | none => simp [leaseCondition]
    | some r =>
      simp only [leaseCondition, decide_eq_true_eq]
      constructor
      · intro h
        exact Or.inr ⟨r, rfl, h⟩
      · rintro (h | ⟨r2, hr2, h⟩)
        · cases h
        · cases hr2
          exact h
  · intro hc
    unfold leaseAcquire
    rw [if_neg hkey, if_neg hls2, if_pos hc]
  · intro hc
    unfold leaseAcquire
    rw [if_neg hkey, if_neg hls2, if_neg (by simp [hc])]
    rfl
  · unfold leaseAcquire
    rw [if_neg hkey, if_neg (by norm_num), if_pos (by simp [leaseCondition])]
    norm_num
  · unfold leaseAcquire
    rw [if_neg hkey, if_neg (by norm_num),
      if_neg (by simp [leaseCondition])]
    rfl
  · unfold leaseAcquire
    rw [if_neg hkey, if_neg (by norm_num), if_pos (by simp [leaseCondition])]
    norm_num

/-- Witness: the lease scenario at concrete tokens — acquire over an expired
row succeeds with expiry 1030, a second acquire at t=1000 is blocked, and an
acquire at t=2000 succeeds with expiry 2030. -/
theorem C6_lease_acquisition_witness :
    leaseAcquire (some ⟨"t0", (500 : Int)⟩) "p" "LOCK" 1000 30 "tok-1"
      = .ok ("tok-1", 1030, some ⟨"tok-1", 1030⟩) ∧
    isLeaseHeldE (leaseAcquire (some ⟨"tok-1", (1030 : Int)⟩) "p" "LOCK" 1000 30 "tok-2")
      = true ∧
    leaseAcquire (some ⟨"tok-1", (1030 : Int)⟩) "p" "LOCK" 2000 30 "tok-2"
      = .ok ("tok-2", 2030, some ⟨"tok-2", 2030⟩) := by
  refine ⟨?_, ?_, ?_⟩
  · exact (C6_lease_acquisition (some ⟨"t0", (500 : Int)⟩) "p" "LOCK"
      (by decide) (by decide) 1000 30 (by decide) "tok-1").2.1 (by decide)
  · exact (C6_lease_acquisition (some ⟨"tok-1", (1030 : Int)⟩) "p" "LOCK"
      (by decide) (by decide) 1000 30 (by decide) "tok-2").2.2.1 (by decide)
  · exact (C6_lease_acquisition (some ⟨"tok-1", (1030 : Int)⟩) "p" "LOCK"
      (by decide) (by decide) 2000 30 (by decide) "tok-2").2.1 (by decide)

/-! ### Encryption binding (C3) -/

/-- Every code point of a Lean string is below the Unicode ceiling. -/
theorem cps_lt_110000 (s : String) : ∀ c ∈ cps s, c < 0x110000 := by
  intro c hc
  simp only [cps, List.mem_map] at hc
  obtain ⟨ch, -, rfl⟩ := hc
  have h := ch.valid
  rcases h with h | ⟨-, h2⟩
  · exact Nat.lt_trans h (by norm_num)
  · exact h2

/-- `_aad` (encryption.py): the fixed protocol tag plus the attribute name,
UTF-8 encoded. -/
def aad (attrName : String) : PyBytes :=
  utf8Encode (cps ("theorydb:encrypted:v1|attr=" ++ attrName))

/-- Distinct attribute names yield distinct associated data. -/
theorem aad_inj (a b : String) (h : aad a = aad b) : a = b := by
  have h2 : cps ("theorydb:encrypted:v1|attr=" ++ a)
      = cps ("theorydb:encrypted:v1|attr=" ++ b) :=
    utf8Encode_inj _ _ (cps_lt_110000 _) (cps_lt_110000 _) h
  simp only [cps, String.data_append, List.map_append] at h2
  have h4 := List.append_cancel_left h2
  have h5 : a.data = b.data := by
    refine List.map_injective_iff.mpr ?_ h4
    intro c1 c2 hc
    exact Char.eq_of_val_eq (by
      have h6 : c1.val.toNat = c2.val.toNat := hc
      exact UInt32.ext h6)
  cases a
  cases b
  simp_all

/-- An idealized AES-256-GCM ciphertext: a perfectly authentic AEAD records
the key, nonce, plaintext and associated data that produced it. -/
structure AEADCt : Type where
  key : PyBytes
  nonce : PyBytes
  plaintext : PyBytes
  ad : PyBytes
  deriving DecidableEq

/-- `AESGCM(dek).encrypt(nonce, plaintext, aad)` in the ideal model. -/
def aeadEncrypt (key nonce plaintext ad : PyBytes) : AEADCt :=
  ⟨key, nonce, plaintext, ad⟩

/-- `AESGCM(dek).decrypt(nonce, ct, aad)` in the ideal model: succeeds
exactly when key, nonce and associated data all match. -/
def aeadDecrypt (key nonce : PyBytes) (ct : AEADCt) (ad : PyBytes) :
    Option PyBytes :=
  if ct.key = key ∧ ct.nonce = nonce ∧ ct.ad = ad then some ct.plaintext
  else Option.none

/-- The stored envelope as `decrypt_attribute_value` probes it: `v` absent
(or not int-convertible) is `none`; the three byte fields are `none` when
missing or not bytes. -/
structure Envelope : Type where
  v : Option Int
  edk : Option PyBytes
  nonce : Option PyBytes
  ct : Option AEADCt

/-- Model of `encrypt_attribute_value`: the KMS data key (`dek`, `edk`) and
the 12-byte nonce are injected, `plaintext` stands for the compact-JSON
marshalled attribute value, and the ciphertext is bound to
`_aad(attr_name)`. -/
def encryptAttributeValue (dek edk nonce : PyBytes) (attrName : String)
    (plaintext : PyBytes) : Envelope :=
  { v := some 1
    edk := some edk
    nonce := some nonce
    ct := some (aeadEncrypt dek nonce plaintext (aad attrName)) }

/-- Model of `decrypt_attribute_value` down to the decrypted payload bytes:
version check, byte-field checks, KMS unwrap of the data key, then AES-GCM
under `_aad(attr_name)`; each failure raises the error the code raises. -/
def decryptAttributeValue (kms : PyBytes → Option PyBytes) (attrName : String)
    (env : Envelope) : Except TableErr PyBytes :=
  match env.v with
  | Option.none => .error (.validation "encrypted envelope is missing v")
  | some version =>
    if version ≠ 1 then
      .error (.validation ("unsupported encrypted envelope version: " ++ toString version))
    else
      match env.edk with
      | Option.none => .error (.validation "encrypted envelope field is not bytes: edk")
      | some edk =>
        match env.nonce with
        | Option.none => .error (.validation "encrypted envelope field is not bytes: nonce")
        | some nonce =>
          match env.ct with
          | Option.none => .error (.validation "encrypted envelope field is not bytes: ct")
          | some ct =>
            match kms edk with
            | Option.none => .error (.awsError "KMSDecryptError" "")
            | some dek =>
              match aeadDecrypt dek nonce ct (aad attrName) with
              | Option.none => .error (.validation "failed to decrypt encrypted envelope")
              | some plaintext => .ok plaintext

/-- Two envelope-shape failures during decryption raise validation errors
with different, cause-naming messages — not one generic error. -/
theorem C3_counterexample :
    decryptAttributeValue (fun _ => Option.none) "a"
        ⟨Option.none, Option.none, Option.none, Option.none⟩
      = .error (.validation "encrypted envelope is missing v") ∧
    decryptAttributeValue (fun _ => Option.none) "a"
        ⟨some 1, Option.none, Option.none, Option.none⟩
      = .error (.validation "encrypted envelope field is not bytes: edk") ∧
    ("encrypted envelope is missing v" ≠ "encrypted envelope field is not bytes: edk") :=
  ⟨rfl, rfl, by decide⟩

/-- C3 (amended): a ciphertext encrypted under attribute name A decrypts
under A to its payload, and under any other name B fails authentication
with the generic "failed to decrypt encrypted envelope" validation error;
envelope-shape failures, by contrast, raise validation errors that name the
cause (missing version, non-bytes field). -/
theorem C3_encryption_binding (kms : PyBytes → Option PyBytes)
    (dek edk nonce plaintext : PyBytes) (A B : String)
    (hkms : kms edk = some dek) (hne : B ≠ A) :
    decryptAttributeValue kms A (encryptAttributeValue dek edk nonce A plaintext)
      = .ok plaintext ∧
    decryptAttributeValue kms B (encryptAttributeValue dek edk nonce A plaintext)
      = .error (.validation "failed to decrypt encrypted envelope") ∧
    (∀ env : Envelope, env.v = Option.none →
        decryptAttributeValue kms B env
          = .error (.validation "encrypted envelope is missing v")) ∧
    (∀ env : Envelope, env.v = some 1 → env.edk = Option.none →
        decryptAttributeValue kms B env
          = .error (.validation "encrypted envelope field is not bytes: edk")) := by
  refine ⟨?_, ?_, ?_, ?_⟩
  · simp [decryptAttributeValue, encryptAttributeValue, hkms, aeadDecrypt, aeadEncrypt]
  · have haad : aad A ≠ aad B := fun h => hne (aad_inj A B h).symm

    simp [decryptAttributeValue, encryptAttributeValue, hkms, aeadDecrypt, aeadEncrypt,
      haad]
  · intro env hv
    simp [decryptAttributeValue, hv]
  · intro env hv hedk
    simp [decryptAttributeValue, hv, hedk]

/-- A one-entry KMS for the binding witness. -/
def c3Kms : PyBytes → Option PyBytes :=
  fun b => if b = [9] then some [1, 2] else Option.none

/-- Witness: a payload encrypted under "ssn" decrypts under "ssn" and fails
under "name" with the generic authentication error. -/
theorem C3_encryption_binding_witness :
    decryptAttributeValue c3Kms "ssn"
        (encryptAttributeValue [1, 2] [9] [0, 0, 0] "ssn" [104, 105])
      = .ok [104, 105] ∧
    decryptAttributeValue c3Kms "name"
        (encryptAttributeValue [1, 2] [9] [0, 0, 0] "ssn" [104, 105])
      = .error (.validation "failed to decrypt encrypted envelope") := by
  have h := C3_encryption_binding c3Kms [1, 2] [9] [0, 0, 0] [104, 105]
    "ssn" "name" rfl (by decide)
  exact ⟨h.1, h.2.1⟩
